import Mathlib

/-!
Shallow embedding of the libmnl core (nlmsg.c, attr.c, callback.c) over a
byte-buffer model, and verification of the frozen claims about it.

A netlink buffer is modelled as a list of bytes (each a Nat below 256);
messages and attributes are offsets into that buffer, exactly as the C code
treats them as pointers into caller-owned memory.  Reads past the end of the
list return 0 and writes past the end are dropped; every theorem that relies
on the content of a write carries an explicit capacity hypothesis putting the
write in bounds, mirroring the "caller supplies a large enough buffer"
precondition of the C API.  Machine arithmetic is modelled on Nat and Int
with explicit reductions modulo two to the width where the C code can wrap
(the uint32 nlmsg_len accumulator, the uint16 nla_len field, the int
remaining-length counter of the iterators).
-/

/-! ## Byte-buffer primitives -/

/-- Read one byte; out-of-range reads give 0. -/
def readByte (buf : List Nat) (i : Nat) : Nat := buf.getD i 0

/-- Write a list of bytes starting at an offset; out-of-range writes are
dropped (List.set is the identity past the end). -/
def writeBytes (buf : List Nat) (off : Nat) : List Nat → List Nat
  | [] => buf
  | b :: bs => writeBytes (buf.set off b) (off + 1) bs

/-- Read a list of n bytes starting at an offset. -/
def readBytes (buf : List Nat) (off : Nat) : Nat → List Nat
  | 0 => []
  | n + 1 => readByte buf off :: readBytes buf (off + 1) n

/-- Little-endian 16-bit read, as the x86 memory layout the code stores
uint16_t fields with. -/
def readU16 (buf : List Nat) (i : Nat) : Nat :=
  readByte buf i + 256 * readByte buf (i + 1)

/-- Little-endian 32-bit read. -/
def readU32 (buf : List Nat) (i : Nat) : Nat :=
  readByte buf i + 256 * readByte buf (i + 1) + 65536 * readByte buf (i + 2) +
    16777216 * readByte buf (i + 3)

/-- Little-endian 64-bit read. -/
def readU64 (buf : List Nat) (i : Nat) : Nat :=
  readU32 buf i + 4294967296 * readU32 buf (i + 4)

/-- Little-endian byte encoding of a 16-bit value. -/
def bytesOfU16 (v : Nat) : List Nat := [v % 256, v / 256 % 256]

/-- Little-endian byte encoding of a 32-bit value. -/
def bytesOfU32 (v : Nat) : List Nat :=
  [v % 256, v / 256 % 256, v / 65536 % 256, v / 16777216 % 256]

/-- Little-endian byte encoding of a 64-bit value. -/
def bytesOfU64 (v : Nat) : List Nat :=
  bytesOfU32 (v % 4294967296) ++ bytesOfU32 (v / 4294967296)

/-- Store a uint16_t field. -/
def writeU16 (buf : List Nat) (i v : Nat) : List Nat := writeBytes buf i (bytesOfU16 v)

/-- Store a uint32_t field. -/
def writeU32 (buf : List Nat) (i v : Nat) : List Nat := writeBytes buf i (bytesOfU32 v)

/-- Conversion of an unsigned 32-bit value to a signed int, as the cast
(int)nlh->nlmsg_len performs it on a two's-complement machine. -/
def toInt32 (n : Nat) : Int :=
  if n % 4294967296 < 2147483648 then (n % 4294967296 : Int)
  else (n % 4294967296 : Int) - 4294967296

/-- Conversion of a signed int to uint32, as the usual arithmetic conversion
performs it when an int meets a uint32 operand. -/
def toUInt32 (i : Int) : Nat := (i % 4294967296).toNat

/-! ## Protocol constants (libmnl.h, linux/netlink.h) -/

def MNL_ALIGNTO : Nat := 4

/-- MNL_ALIGN(len) = ((len)+MNL_ALIGNTO-1) AND NOT(MNL_ALIGNTO-1): on
nonnegative values, masking off the two low bits equals subtracting the
remainder modulo 4. -/
def MNL_ALIGN (len : Nat) : Nat :=
  (len + MNL_ALIGNTO - 1) - (len + MNL_ALIGNTO - 1) % MNL_ALIGNTO

/-- sizeof(struct nlmsghdr) = 16, already 4-byte aligned. -/
def MNL_NLMSG_HDRLEN : Nat := 16

/-- sizeof(struct nlattr) = 4, already 4-byte aligned. -/
def MNL_ATTR_HDRLEN : Nat := 4

def MNL_CB_ERROR : Int := -1
def MNL_CB_STOP : Int := 0
def MNL_CB_OK : Int := 1

def NLMSG_NOOP : Nat := 1
def NLMSG_ERROR : Nat := 2
def NLMSG_DONE : Nat := 3
def NLMSG_OVERRUN : Nat := 4
def NLMSG_MIN_TYPE : Nat := 16

def NLA_F_NESTED : Nat := 32768

def MNL_TYPE_UNSPEC : Nat := 0
def MNL_TYPE_U8 : Nat := 1
def MNL_TYPE_U16 : Nat := 2
def MNL_TYPE_U32 : Nat := 3
def MNL_TYPE_U64 : Nat := 4
def MNL_TYPE_STRING : Nat := 5
def MNL_TYPE_FLAG : Nat := 6
def MNL_TYPE_MSECS : Nat := 7
def MNL_TYPE_NESTED : Nat := 8
def MNL_TYPE_NESTED_COMPAT : Nat := 9
def MNL_TYPE_NUL_STRING : Nat := 10
def MNL_TYPE_BINARY : Nat := 11
def MNL_TYPE_MAX : Nat := 12

def EINVAL : Nat := 22
def ERANGE : Nat := 34
def EBADMSG : Nat := 74

/-- Return value plus the errno cell a libmnl function may set (none means
errno is left untouched). -/
structure CRet where
  ret : Int
  err : Option Nat
deriving DecidableEq, Repr

/-! ## nlmsg.c -/

/-- mnl_nlmsg_size: len + MNL_NLMSG_HDRLEN. -/
def mnl_nlmsg_size (len : Nat) : Nat := len + MNL_NLMSG_HDRLEN

/-- mnl_nlmsg_get_payload_len on the in-buffer message at offset 0 is
nlmsg_len - MNL_NLMSG_HDRLEN (not needed by the claims; the length field
itself is read with readU32). -/
def mnl_nlmsg_get_payload_len (buf : List Nat) : Nat :=
  readU32 buf 0 - MNL_NLMSG_HDRLEN

/-- mnl_nlmsg_put_header: memset 16 bytes to zero, then store
nlmsg_len = MNL_ALIGN(sizeof(struct nlmsghdr)) = 16.  The message is built
at offset 0 of the buffer. -/
def mnl_nlmsg_put_header (buf : List Nat) : List Nat :=
  writeU32 (writeBytes buf 0 (List.replicate 16 0)) 0 MNL_NLMSG_HDRLEN

/-- mnl_nlmsg_get_payload_tail, as the offset from the message start:
MNL_ALIGN(nlh->nlmsg_len). -/
def mnl_nlmsg_get_payload_tail (buf : List Nat) : Nat :=
  MNL_ALIGN (readU32 buf 0)

/-- mnl_nlmsg_put_extra_header: remember ptr = nlh + nlmsg_len, advance
nlmsg_len by MNL_ALIGN(size) (uint32 arithmetic), then memset size bytes at
ptr. -/
def mnl_nlmsg_put_extra_header (buf : List Nat) (size : Nat) : List Nat :=
  let ptr := readU32 buf 0
  let b := writeU32 buf 0 ((readU32 buf 0 + MNL_ALIGN size) % 4294967296)
  writeBytes b ptr (List.replicate size 0)

/-- mnl_nlmsg_ok on a message whose nlmsg_len field holds nlmsg_len, with
len remaining bytes: len >= 16 AND nlmsg_len >= 16 (unsigned) AND
(int)nlmsg_len <= len. -/
def mnl_nlmsg_ok (nlmsg_len : Nat) (len : Int) : Bool :=
  decide ((MNL_NLMSG_HDRLEN : Int) ≤ len) &&
    decide (MNL_NLMSG_HDRLEN ≤ nlmsg_len) &&
    decide (toInt32 nlmsg_len ≤ len)

/-- mnl_nlmsg_seq_ok: nlh->nlmsg_seq AND seq ? nlmsg_seq == seq : true. -/
def mnl_nlmsg_seq_ok (nlmsg_seq seq : Nat) : Bool :=
  if nlmsg_seq ≠ 0 ∧ seq ≠ 0 then decide (nlmsg_seq = seq) else true

/-- mnl_nlmsg_portid_ok: nlh->nlmsg_pid AND portid ? nlmsg_pid == portid :
true. -/
def mnl_nlmsg_portid_ok (nlmsg_pid portid : Nat) : Bool :=
  if nlmsg_pid ≠ 0 ∧ portid ≠ 0 then decide (nlmsg_pid = portid) else true

/-- The pointer advance of mnl_nlmsg_next: MNL_ALIGN(nlh->nlmsg_len)
computed in uint32 arithmetic ((nlmsg_len + 3) wraps modulo 2^32 before the
mask clears the two low bits). -/
def nlmsgAdvance (nlmsg_len : Nat) : Nat :=
  (nlmsg_len + 3) % 4294967296 - (nlmsg_len + 3) % 4294967296 % 4

/-- The remaining-length update of mnl_nlmsg_next:
*len -= MNL_ALIGN(nlh->nlmsg_len).  The int len is converted to uint32 by
the usual arithmetic conversions, the subtraction wraps modulo 2^32, and the
result is converted back to int. -/
def nlmsgNextLen (len : Int) (nlmsg_len : Nat) : Int :=
  toInt32 ((toUInt32 len + (4294967296 - nlmsgAdvance nlmsg_len)) % 4294967296)

/-! ## attr.c -/

/-- mnl_attr_get_len on the attribute at offset off: the uint16 nla_len
field (first field of struct nlattr). -/
def mnl_attr_get_len (buf : List Nat) (off : Nat) : Nat := readU16 buf off

/-- mnl_attr_get_type: nla_type AND NLA_TYPE_MASK; the mask 0x3fff keeps the
14 low bits, i.e. reduces modulo 2^14 = 16384. -/
def mnl_attr_get_type (buf : List Nat) (off : Nat) : Nat :=
  readU16 buf (off + 2) % 16384

/-- mnl_attr_get_payload_len: nla_len - MNL_ATTR_HDRLEN in uint16
arithmetic. -/
def mnl_attr_get_payload_len (buf : List Nat) (off : Nat) : Nat :=
  (readU16 buf off + 65536 - MNL_ATTR_HDRLEN) % 65536

/-- mnl_attr_get_payload, as the offset of the payload region. -/
def mnl_attr_get_payload (off : Nat) : Nat := off + MNL_ATTR_HDRLEN

/-- mnl_attr_ok on an attribute whose nla_len field holds nla_len, with len
remaining bytes: len >= 4 AND nla_len >= 4 AND (int)nla_len <= len (nla_len
is uint16, so its conversion to int is value-preserving). -/
def mnl_attr_ok (nla_len : Nat) (len : Int) : Bool :=
  decide ((MNL_ATTR_HDRLEN : Int) ≤ len) &&
    decide (MNL_ATTR_HDRLEN ≤ nla_len) &&
    decide ((nla_len : Int) ≤ len)

/-- mnl_attr_get_u8: the first payload byte. -/
def mnl_attr_get_u8 (buf : List Nat) (off : Nat) : Nat :=
  readByte buf (off + MNL_ATTR_HDRLEN)

/-- mnl_attr_get_u16. -/
def mnl_attr_get_u16 (buf : List Nat) (off : Nat) : Nat :=
  readU16 buf (off + MNL_ATTR_HDRLEN)

/-- mnl_attr_get_u32. -/
def mnl_attr_get_u32 (buf : List Nat) (off : Nat) : Nat :=
  readU32 buf (off + MNL_ATTR_HDRLEN)

/-- mnl_attr_get_u64 (the memcpy through a temporary reads the same eight
payload bytes). -/
def mnl_attr_get_u64 (buf : List Nat) (off : Nat) : Nat :=
  readU64 buf (off + MNL_ATTR_HDRLEN)

/-- mnl_attr_get_str returns a pointer to the attribute payload; its value
as a byte string is the payload region of the attribute, of length
mnl_attr_get_payload_len. -/
def mnl_attr_get_str (buf : List Nat) (off : Nat) : List Nat :=
  readBytes buf (off + MNL_ATTR_HDRLEN) (mnl_attr_get_payload_len buf off)

/-- mnl_attr_put: write nla_type, write nla_len = MNL_ALIGN(4) + len as
uint16, memcpy the payload, then advance nlmsg_len (read back from the
buffer) by MNL_ALIGN(payload_len) in uint32 arithmetic.  The attribute lands
at the payload tail MNL_ALIGN(nlmsg_len). -/
def mnl_attr_put (buf : List Nat) (t : Nat) (data : List Nat) : List Nat :=
  let tail := mnl_nlmsg_get_payload_tail buf
  let payload_len := (MNL_ALIGN MNL_ATTR_HDRLEN + data.length) % 65536
  let b1 := writeU16 buf (tail + 2) (t % 65536)
  let b2 := writeU16 b1 tail payload_len
  let b3 := writeBytes b2 (tail + MNL_ATTR_HDRLEN) data
  writeU32 b3 0 ((readU32 b3 0 + MNL_ALIGN payload_len) % 4294967296)

/-- mnl_attr_put_u8: one byte of payload (the uint8_t argument). -/
def mnl_attr_put_u8 (buf : List Nat) (t v : Nat) : List Nat :=
  mnl_attr_put buf t [v % 256]

/-- mnl_attr_put_u16. -/
def mnl_attr_put_u16 (buf : List Nat) (t v : Nat) : List Nat :=
  mnl_attr_put buf t (bytesOfU16 (v % 65536))

/-- mnl_attr_put_u32. -/
def mnl_attr_put_u32 (buf : List Nat) (t v : Nat) : List Nat :=
  mnl_attr_put buf t (bytesOfU32 (v % 4294967296))

/-- mnl_attr_put_u64. -/
def mnl_attr_put_u64 (buf : List Nat) (t v : Nat) : List Nat :=
  mnl_attr_put buf t (bytesOfU64 (v % 18446744073709551616))

/-- mnl_attr_put_str: payload is strlen(data) bytes; the argument s models
the C string, so it contains no zero byte and strlen is its length. -/
def mnl_attr_put_str (buf : List Nat) (t : Nat) (s : List Nat) : List Nat :=
  mnl_attr_put buf t s

/-- mnl_attr_put_str_null (declared as mnl_attr_put_strz in libmnl.h):
payload is strlen(data)+1 bytes, i.e. the string plus its terminator. -/
def mnl_attr_put_str_null (buf : List Nat) (t : Nat) (s : List Nat) : List Nat :=
  mnl_attr_put buf t (s ++ [0])

/-- mnl_attr_nest_start: write nla_type = NLA_F_NESTED OR type at the
payload tail (nla_len is left for mnl_attr_nest_end), advance nlmsg_len by
MNL_ALIGN(4).  Returns the new buffer and the offset of the nest start. -/
def mnl_attr_nest_start (buf : List Nat) (t : Nat) : List Nat × Nat :=
  let start := mnl_nlmsg_get_payload_tail buf
  let b1 := writeU16 buf (start + 2) (Nat.lor NLA_F_NESTED t % 65536)
  (writeU32 b1 0 ((readU32 b1 0 + MNL_ALIGN MNL_ATTR_HDRLEN) % 4294967296), start)

/-- mnl_attr_nest_end: start->nla_len = payload tail - start, a pointer
difference stored into the uint16 nla_len field. -/
def mnl_attr_nest_end (buf : List Nat) (start : Nat) : List Nat :=
  writeU16 buf start
    ((((mnl_nlmsg_get_payload_tail buf : Int) - (start : Int)) % 65536).toNat)

/-- The per-type expected lengths table mnl_attr_data_type_len (only the
four integer kinds are set). -/
def mnl_attr_data_type_len (t : Nat) : Nat :=
  if t = MNL_TYPE_U8 then 1
  else if t = MNL_TYPE_U16 then 2
  else if t = MNL_TYPE_U32 then 4
  else if t = MNL_TYPE_U64 then 8
  else 0

/-- The helper __mnl_attr_validate on an attribute with the given payload bytes
(attr_len = payload length, attr_data = payload): the initial minimum-length
check, the per-type switch, then the exact-length check when exp_len is
nonzero.  Mirrors the control flow of attr.c line by line. -/
def __mnl_attr_validate (t : Nat) (payload : List Nat) (exp_len : Nat) : CRet :=
  let attr_len := payload.length
  if attr_len < exp_len then ⟨-1, some ERANGE⟩
  else if t = MNL_TYPE_FLAG ∧ 0 < attr_len then ⟨-1, some ERANGE⟩
  else if t = MNL_TYPE_NUL_STRING ∧ attr_len = 0 then ⟨-1, some ERANGE⟩
  else if t = MNL_TYPE_NUL_STRING ∧ payload.getD (attr_len - 1) 0 ≠ 0 then ⟨-1, some EINVAL⟩
  else if t = MNL_TYPE_STRING ∧ attr_len = 0 then ⟨-1, some ERANGE⟩
  else if t = MNL_TYPE_NESTED ∧ attr_len ≠ 0 ∧ attr_len < MNL_ATTR_HDRLEN then ⟨-1, some ERANGE⟩
  else if exp_len ≠ 0 ∧ exp_len < attr_len then ⟨-1, some ERANGE⟩
  else ⟨0, none⟩

/-- mnl_attr_validate: reject types at or above MNL_TYPE_MAX, else validate
with the expected length from the table. -/
def mnl_attr_validate (t : Nat) (payload : List Nat) : CRet :=
  if MNL_TYPE_MAX ≤ t then ⟨-1, some EINVAL⟩
  else __mnl_attr_validate t payload (mnl_attr_data_type_len t)

/-- mnl_attr_validate2: reject types at or above MNL_TYPE_MAX, else validate
with the caller-supplied expected length. -/
def mnl_attr_validate2 (t : Nat) (payload : List Nat) (exp_len : Nat) : CRet :=
  if MNL_TYPE_MAX ≤ t then ⟨-1, some EINVAL⟩
  else __mnl_attr_validate t payload exp_len

/-! ## Guard-driven iteration (the loops of mnl_attr_parse, mnl_cb_run2 and
the mnl_attr_for_each / mnl_nlmsg_ok iteration patterns)

The loops are modelled with a fuel parameter because the nlmsg loop, driven
by wrapping int arithmetic, is not structurally decreasing; every theorem
about the walks quantifies over the fuel, which expresses termination. -/

/-- Offsets of the attributes visited by the loop
while (mnl_attr_ok(attr, len)) { cb(attr); attr = mnl_attr_next(attr, and len); }
starting at pos with len remaining bytes.  mnl_attr_next subtracts
MNL_ALIGN(nla_len) from len (exact int arithmetic: nla_len is uint16) and
advances the pointer by the same amount. -/
def attrWalk (buf : List Nat) : Nat → Nat → Int → List Nat
  | 0, _, _ => []
  | fuel + 1, pos, len =>
    if mnl_attr_ok (readU16 buf pos) len then
      pos :: attrWalk buf fuel (pos + MNL_ALIGN (readU16 buf pos))
        (len - (MNL_ALIGN (readU16 buf pos) : Int))
    else []

/-- Offsets of every byte the attr loop reads: mnl_attr_ok reads the two
nla_len bytes only after its first conjunct len >= 4 holds (short-circuit),
and mnl_attr_next re-reads the same two bytes. -/
def attrWalkReads (buf : List Nat) : Nat → Nat → Int → List Nat
  | 0, _, _ => []
  | fuel + 1, pos, len =>
    if mnl_attr_ok (readU16 buf pos) len then
      pos :: (pos + 1) :: attrWalkReads buf fuel (pos + MNL_ALIGN (readU16 buf pos))
        (len - (MNL_ALIGN (readU16 buf pos) : Int))
    else if (MNL_ATTR_HDRLEN : Int) ≤ len then [pos, pos + 1] else []

/-- Offsets of the messages visited by the loop
while (mnl_nlmsg_ok(nlh, len)) { ...; nlh = mnl_nlmsg_next(nlh, and len); }:
the pointer advances by the uint32 MNL_ALIGN(nlmsg_len) and len is updated
by the wrapping subtraction nlmsgNextLen. -/
def nlmsgWalk (buf : List Nat) : Nat → Nat → Int → List Nat
  | 0, _, _ => []
  | fuel + 1, pos, len =>
    if mnl_nlmsg_ok (readU32 buf pos) len then
      pos :: nlmsgWalk buf fuel (pos + nlmsgAdvance (readU32 buf pos))
        (nlmsgNextLen len (readU32 buf pos))
    else []

/-- Offsets of every byte the nlmsg loop reads: mnl_nlmsg_ok reads the four
nlmsg_len bytes only after its first conjunct len >= 16 holds
(short-circuit), and mnl_nlmsg_next re-reads the same four bytes. -/
def nlmsgWalkReads (buf : List Nat) : Nat → Nat → Int → List Nat
  | 0, _, _ => []
  | fuel + 1, pos, len =>
    if mnl_nlmsg_ok (readU32 buf pos) len then
      pos :: (pos + 1) :: (pos + 2) :: (pos + 3) ::
        nlmsgWalkReads buf fuel (pos + nlmsgAdvance (readU32 buf pos))
          (nlmsgNextLen len (readU32 buf pos))
    else if (MNL_NLMSG_HDRLEN : Int) ≤ len then [pos, pos + 1, pos + 2, pos + 3] else []

/-- The remaining length mnl_attr_parse starts its loop with:
nlh->nlmsg_len - MNL_NLMSG_HDRLEN - MNL_ALIGN(offset), exact for the
messages considered here (smaller than 2^31 bytes, so the int conversion is
value-preserving). -/
def mnl_attr_parse_len (buf : List Nat) (offset : Nat) : Int :=
  (readU32 buf 0 : Int) - (MNL_NLMSG_HDRLEN : Int) - (MNL_ALIGN offset : Int)

/-- mnl_attr_parse with a callback that always answers MNL_CB_OK visits the
attribute at each of these offsets, in this order: the loop starts at
mnl_nlmsg_get_payload_offset(nlh, offset) = 16 + MNL_ALIGN(offset). The fuel
exceeds the largest possible number of iterations (each consumes at least 4
bytes of the remaining length). -/
def mnl_attr_parse_offsets (buf : List Nat) (offset : Nat) : List Nat :=
  attrWalk buf ((mnl_attr_parse_len buf offset).toNat / 4 + 1)
    (MNL_NLMSG_HDRLEN + MNL_ALIGN offset) (mnl_attr_parse_len buf offset)

/-- mnl_attr_parse_nested with a callback that always answers MNL_CB_OK
visits the attribute at each of these offsets, in this order: the loop
starts at mnl_attr_get_payload(nested) with mnl_attr_get_payload_len(nested)
remaining bytes. -/
def mnl_attr_parse_nested_offsets (buf : List Nat) (off : Nat) : List Nat :=
  attrWalk buf (mnl_attr_get_payload_len buf off / 4 + 1)
    (off + MNL_ATTR_HDRLEN) (mnl_attr_get_payload_len buf off : Int)

/-! ## callback.c -/

/-- mnl_cb_error, the built-in NLMSG_ERROR handler, as a function of the
nlmsg_len field and of the embedded signed status err->error (the int at
the start of the payload): a message shorter than
mnl_nlmsg_size(sizeof(struct nlmsgerr)) = 36 bytes is rejected as EBADMSG
before the status is read; otherwise errno receives the absolute value of
the status and the return value is MNL_CB_STOP exactly on status 0. -/
def mnl_cb_error (nlmsg_len : Nat) (error : Int) : CRet :=
  if nlmsg_len < mnl_nlmsg_size 20 then ⟨MNL_CB_ERROR, some EBADMSG⟩
  else ⟨if error = 0 then MNL_CB_STOP else MNL_CB_ERROR,
    some (if error < 0 then (-error).toNat else error.toNat)⟩

/-- The three built-in control handlers of callback.c. -/
inductive DefaultCb where
  | noop
  | err
  | stop
deriving DecidableEq, Repr

/-- default_cb_array: NLMSG_NOOP and NLMSG_OVERRUN map to mnl_cb_noop,
NLMSG_ERROR to mnl_cb_error, NLMSG_DONE to mnl_cb_stop; every other slot of
the NLMSG_MIN_TYPE-sized array is NULL. -/
def default_cb_array (t : Nat) : Option DefaultCb :=
  if t = NLMSG_NOOP then some DefaultCb.noop
  else if t = NLMSG_ERROR then some DefaultCb.err
  else if t = NLMSG_DONE then some DefaultCb.stop
  else if t = NLMSG_OVERRUN then some DefaultCb.noop
  else none

/-- The handler a message reaches inside the mnl_cb_run2 loop. -/
inductive CbRoute where
  | dataCb
  | ctlCb (t : Nat)
  | defaultCb (d : DefaultCb)
  | skip
deriving DecidableEq, Repr

/-- The routing decision of mnl_cb_run2 (callback.c lines 89-105) for a
message of type nlmsg_type, given whether a data callback was supplied,
whether a control-callback array was supplied, which of its entries are
non-NULL, and its declared length:
if (type >= NLMSG_MIN_TYPE) use cb_data if non-NULL;
else if (type < cb_ctl_array_len) use cb_ctl_array[type] if the array and
the entry are non-NULL;
else use default_cb_array[type] if non-NULL; otherwise no handler runs. -/
def mnl_cb_run2_route (nlmsg_type : Nat) (has_cb_data : Bool)
    (has_ctl_array : Bool) (ctl_entry : Nat → Bool) (cb_ctl_array_len : Nat) : CbRoute :=
  if NLMSG_MIN_TYPE ≤ nlmsg_type then
    if has_cb_data then CbRoute.dataCb else CbRoute.skip
  else if nlmsg_type < cb_ctl_array_len then
    if has_ctl_array && ctl_entry nlmsg_type then CbRoute.ctlCb nlmsg_type else CbRoute.skip
  else
    match default_cb_array nlmsg_type with
    | some d => CbRoute.defaultCb d
    | none => CbRoute.skip

/-- The routing rule in the words of claim C7: a control message (type below
NLMSG_MIN_TYPE) goes to the override handler when the caller supplied one
for that specific control type, and otherwise to the corresponding built-in
default; a data message goes to the data handler when one was supplied and
is silently skipped otherwise.  (Definition follows the claim, for
comparison with mnl_cb_run2_route, which follows the code.) -/
def claimRouteC7 (nlmsg_type : Nat) (has_cb_data : Bool)
    (has_ctl_array : Bool) (ctl_entry : Nat → Bool) : CbRoute :=
  if nlmsg_type < NLMSG_MIN_TYPE then
    if has_ctl_array && ctl_entry nlmsg_type then CbRoute.ctlCb nlmsg_type
    else
      match default_cb_array nlmsg_type with
      | some d => CbRoute.defaultCb d
      | none => CbRoute.skip
  else if has_cb_data then CbRoute.dataCb else CbRoute.skip

/-! ## Builder operations -/

/-- The typed put operations of claim C3 (attr.c): the argument of pstr and
pstrz models the C string passed to mnl_attr_put_str and
mnl_attr_put_str_null. -/
inductive PutOp where
  | pu8 (t v : Nat)
  | pu16 (t v : Nat)
  | pu32 (t v : Nat)
  | pu64 (t v : Nat)
  | pstr (t : Nat) (s : List Nat)
  | pstrz (t : Nat) (s : List Nat)
deriving DecidableEq, Repr

def applyPutOp (buf : List Nat) : PutOp → List Nat
  | PutOp.pu8 t v => mnl_attr_put_u8 buf t v
  | PutOp.pu16 t v => mnl_attr_put_u16 buf t v
  | PutOp.pu32 t v => mnl_attr_put_u32 buf t v
  | PutOp.pu64 t v => mnl_attr_put_u64 buf t v
  | PutOp.pstr t s => mnl_attr_put_str buf t s
  | PutOp.pstrz t s => mnl_attr_put_str_null buf t s

def applyPutOps (buf : List Nat) (ops : List PutOp) : List Nat :=
  ops.foldl applyPutOp buf

/-- The attribute type a put operation stores. -/
def putOpType : PutOp → Nat
  | PutOp.pu8 t _ => t
  | PutOp.pu16 t _ => t
  | PutOp.pu32 t _ => t
  | PutOp.pu64 t _ => t
  | PutOp.pstr t _ => t
  | PutOp.pstrz t _ => t

/-- The payload bytes a put operation stores. -/
def putOpPayload : PutOp → List Nat
  | PutOp.pu8 _ v => [v % 256]
  | PutOp.pu16 _ v => bytesOfU16 (v % 65536)
  | PutOp.pu32 _ v => bytesOfU32 (v % 4294967296)
  | PutOp.pu64 _ v => bytesOfU64 (v % 18446744073709551616)
  | PutOp.pstr _ s => s
  | PutOp.pstrz _ s => s ++ [0]

/-- Well-formedness of a put operation: integer arguments fit their C
parameter type, string arguments are genuine C strings (bytes below 256,
no embedded NUL) short enough for nla_len to fit its uint16 field. -/
def WFPutOp : PutOp → Prop
  | PutOp.pu8 _ v => v < 256
  | PutOp.pu16 _ v => v < 65536
  | PutOp.pu32 _ v => v < 4294967296
  | PutOp.pu64 _ v => v < 18446744073709551616
  | PutOp.pstr _ s => (∀ b ∈ s, b < 256) ∧ 0 ∉ s ∧ s.length + MNL_ATTR_HDRLEN < 65536
  | PutOp.pstrz _ s => (∀ b ∈ s, b < 256) ∧ 0 ∉ s ∧ s.length + 1 + MNL_ATTR_HDRLEN < 65536

instance : DecidablePred WFPutOp := by
  intro op
  cases op <;> simp only [WFPutOp] <;> infer_instance

/-- The type and payload of the attribute a put operation appends. -/
def encodePutOp (op : PutOp) : Nat × List Nat := (putOpType op, putOpPayload op)

/-- The layout predicate: the buffer holds, starting at offset off, the
given sequence of attributes (nla_len, nla_type, payload bytes), each
followed by padding up to the next 4-byte boundary. -/
def attrsAt (buf : List Nat) : Nat → List (Nat × List Nat) → Prop
  | _, [] => True
  | off, (t, p) :: rest =>
    readU16 buf off = MNL_ATTR_HDRLEN + p.length ∧
    readU16 buf (off + 2) = t % 65536 ∧
    readBytes buf (off + MNL_ATTR_HDRLEN) p.length = p ∧
    attrsAt buf (off + MNL_ALIGN (MNL_ATTR_HDRLEN + p.length)) rest

/-- Total aligned on-wire size of a sequence of attributes. -/
def attrsSizes : List (Nat × List Nat) → Nat
  | [] => 0
  | (_, p) :: rest => MNL_ALIGN (MNL_ATTR_HDRLEN + p.length) + attrsSizes rest

/-- The offsets at which a sequence of attributes laid out from pos lives. -/
def attrOffsets (pos : Nat) : List (Nat × List Nat) → List Nat
  | [] => []
  | (_, p) :: rest => pos :: attrOffsets (pos + MNL_ALIGN (MNL_ATTR_HDRLEN + p.length)) rest

/-- Total aligned on-wire size of the attributes a list of put operations
appends. -/
def putsTotal (ops : List PutOp) : Nat :=
  attrsSizes (ops.map encodePutOp)

/-- What the matching typed getter returns on the attribute a put operation
built (claim C3): the numeric getters return the value written, and
mnl_attr_get_str returns the stored string (for pstrz including the
terminator the putter appended). -/
def getterMatches (buf : List Nat) (off : Nat) : PutOp → Prop
  | PutOp.pu8 _ v => mnl_attr_get_u8 buf off = v
  | PutOp.pu16 _ v => mnl_attr_get_u16 buf off = v
  | PutOp.pu32 _ v => mnl_attr_get_u32 buf off = v
  | PutOp.pu64 _ v => mnl_attr_get_u64 buf off = v
  | PutOp.pstr _ s => mnl_attr_get_str buf off = s
  | PutOp.pstrz _ s => mnl_attr_get_str buf off = s ++ [0]

/-- The builder operations of claim C10: everything that advances nlmsg_len
after mnl_nlmsg_put_header. -/
inductive BuildOp where
  | extraHeader (size : Nat)
  | put (t : Nat) (data : List Nat)
  | putU8 (t v : Nat)
  | putU16 (t v : Nat)
  | putU32 (t v : Nat)
  | putU64 (t v : Nat)
  | putStr (t : Nat) (s : List Nat)
  | putStrNull (t : Nat) (s : List Nat)
  | nestStart (t : Nat)
  | nestEnd (start : Nat)
deriving DecidableEq, Repr

def applyBuildOp (buf : List Nat) : BuildOp → List Nat
  | BuildOp.extraHeader size => mnl_nlmsg_put_extra_header buf size
  | BuildOp.put t data => mnl_attr_put buf t data
  | BuildOp.putU8 t v => mnl_attr_put_u8 buf t v
  | BuildOp.putU16 t v => mnl_attr_put_u16 buf t v
  | BuildOp.putU32 t v => mnl_attr_put_u32 buf t v
  | BuildOp.putU64 t v => mnl_attr_put_u64 buf t v
  | BuildOp.putStr t s => mnl_attr_put_str buf t s
  | BuildOp.putStrNull t s => mnl_attr_put_str_null buf t s
  | BuildOp.nestStart t => (mnl_attr_nest_start buf t).1
  | BuildOp.nestEnd start => mnl_attr_nest_end buf start

def applyBuildOps (buf : List Nat) (ops : List BuildOp) : List Nat :=
  ops.foldl applyBuildOp buf

/-- The amount a builder operation advances nlmsg_len by (0 for nestEnd,
which only back-patches the nla_len of its nest). -/
def buildOpSize : BuildOp → Nat
  | BuildOp.extraHeader size => MNL_ALIGN size
  | BuildOp.put _ data => MNL_ALIGN ((MNL_ATTR_HDRLEN + data.length) % 65536)
  | BuildOp.putU8 _ _ => MNL_ALIGN (MNL_ATTR_HDRLEN + 1)
  | BuildOp.putU16 _ _ => MNL_ALIGN (MNL_ATTR_HDRLEN + 2)
  | BuildOp.putU32 _ _ => MNL_ALIGN (MNL_ATTR_HDRLEN + 4)
  | BuildOp.putU64 _ _ => MNL_ALIGN (MNL_ATTR_HDRLEN + 8)
  | BuildOp.putStr _ s => MNL_ALIGN ((MNL_ATTR_HDRLEN + s.length) % 65536)
  | BuildOp.putStrNull _ s => MNL_ALIGN ((MNL_ATTR_HDRLEN + s.length + 1) % 65536)
  | BuildOp.nestStart _ => MNL_ALIGN MNL_ATTR_HDRLEN
  | BuildOp.nestEnd _ => 0

def buildTotal (ops : List BuildOp) : Nat :=
  (ops.map buildOpSize).sum

/-- Well-formedness of a builder operation: payloads short enough for
nla_len to fit its uint16 field, strings are genuine C strings, and
nest ends point past the message header (mnl_attr_nest_start only ever
returns offsets of at least 16). -/
def WFBuildOp : BuildOp → Prop
  | BuildOp.put _ data => data.length + MNL_ATTR_HDRLEN < 65536
  | BuildOp.putStr _ s => 0 ∉ s ∧ s.length + MNL_ATTR_HDRLEN < 65536
  | BuildOp.putStrNull _ s => 0 ∉ s ∧ s.length + 1 + MNL_ATTR_HDRLEN < 65536
  | BuildOp.nestEnd start => MNL_ATTR_HDRLEN ≤ start
  | _ => True

instance : DecidablePred WFBuildOp := by
  intro op
  cases op <;> simp only [WFBuildOp] <;> infer_instance

/-- The per-kind structural rule of claim C4, written from the claim: exact
widths for the integer kinds, empty payload for flags, nonempty and
NUL-terminated payload for nul-strings, nonempty payload for strings, empty
or header-sized payload for nests; the kinds the claim leaves unlisted
(unspecified, msecs, nested-compat, binary) carry no structural constraint. -/
def structuralRuleC4 (t : Nat) (payload : List Nat) : Prop :=
  if t = MNL_TYPE_U8 then payload.length = 1
  else if t = MNL_TYPE_U16 then payload.length = 2
  else if t = MNL_TYPE_U32 then payload.length = 4
  else if t = MNL_TYPE_U64 then payload.length = 8
  else if t = MNL_TYPE_FLAG then payload.length = 0
  else if t = MNL_TYPE_NUL_STRING then
    1 ≤ payload.length ∧ payload.getD (payload.length - 1) 0 = 0
  else if t = MNL_TYPE_STRING then 1 ≤ payload.length
  else if t = MNL_TYPE_NESTED then
    payload.length = 0 ∨ MNL_ATTR_HDRLEN ≤ payload.length
  else True

/-- The message of the claim C9 scenario: a 64-byte zeroed buffer, a fresh
header, an extra header of size 4, a u32 attribute of type 5 with value 42,
and a string attribute of type 6 with value "eth0" (bytes 101 116 104 48,
no terminator). -/
def c9msg : List Nat :=
  mnl_attr_put_str
    (mnl_attr_put_u32 (mnl_nlmsg_put_extra_header (mnl_nlmsg_put_header
      (List.replicate 64 0)) 4) 5 42)
    6 [101, 116, 104, 48]

/-! ## Lemmas about the byte-buffer primitives -/

theorem length_writeBytes (data : List Nat) : ∀ (buf : List Nat) (off : Nat),
    (writeBytes buf off data).length = buf.length := by
  induction data with
  | nil => intro buf off; rfl
  | cons b bs ih =>
    intro buf off
    simp [writeBytes, ih]

theorem readByte_writeBytes_of_lt (data : List Nat) : ∀ (buf : List Nat) (off i : Nat),
    i < off → readByte (writeBytes buf off data) i = readByte buf i := by
  induction data with
  | nil => intro buf off i _; rfl
  | cons b bs ih =>
    intro buf off i hi
    rw [writeBytes, ih _ _ _ (by omega)]
    simp only [readByte, List.getD_eq_getElem?_getD]
    rw [List.getElem?_set_ne (by omega)]

theorem readByte_writeBytes_of_ge (data : List Nat) : ∀ (buf : List Nat) (off i : Nat),
    off + data.length ≤ i → readByte (writeBytes buf off data) i = readByte buf i := by
  induction data with
  | nil => intro buf off i _; rfl
  | cons b bs ih =>
    intro buf off i hi
    simp only [List.length_cons] at hi
    rw [writeBytes, ih _ _ _ (by omega)]
    simp only [readByte, List.getD_eq_getElem?_getD]
    rw [List.getElem?_set_ne (by omega)]

theorem readByte_writeBytes_get (data : List Nat) : ∀ (buf : List Nat) (off k : Nat),
    k < data.length → off + k < buf.length →
    readByte (writeBytes buf off data) (off + k) = data.getD k 0 := by
  induction data with
  | nil => intro buf off k hk; simp at hk
  | cons b bs ih =>
    intro buf off k hk hin
    match k with
    | 0 =>
      simp only [Nat.add_zero] at hin ⊢
      rw [writeBytes, readByte_writeBytes_of_lt bs _ _ _ (by omega)]
      simp only [readByte, List.getD_eq_getElem?_getD]
      rw [List.getElem?_set_self (by omega)]
      simp
    | k + 1 =>
      have heq : off + (k + 1) = (off + 1) + k := by omega
      rw [writeBytes, heq, ih _ _ _ (by simpa using hk) (by simp; omega)]
      simp

theorem readBytes_eq_self (data : List Nat) : ∀ (buf : List Nat) (off : Nat),
    (∀ k, k < data.length → readByte buf (off + k) = data.getD k 0) →
    readBytes buf off data.length = data := by
  induction data with
  | nil => intro buf off _; rfl
  | cons b bs ih =>
    intro buf off h
    rw [List.length_cons, readBytes]
    have h0 := h 0 (by simp)
    rw [Nat.add_zero] at h0
    rw [h0, ih _ (off + 1) (fun k hk => by
      have := h (k + 1) (by simpa using hk)
      rwa [show off + (k + 1) = off + 1 + k by omega] at this)]
    rfl

theorem readBytes_congr (n : Nat) : ∀ (b1 b2 : List Nat) (off : Nat),
    (∀ k, k < n → readByte b1 (off + k) = readByte b2 (off + k)) →
    readBytes b1 off n = readBytes b2 off n := by
  induction n with
  | zero => intro _ _ _ _; rfl
  | succ n ih =>
    intro b1 b2 off h
    rw [readBytes, readBytes]
    have h0 := h 0 (by omega)
    rw [Nat.add_zero] at h0
    rw [h0, ih b1 b2 (off + 1) (fun k hk => by
      have := h (k + 1) (by omega)
      rwa [show off + (k + 1) = off + 1 + k by omega] at this)]

theorem readBytes_writeBytes (data : List Nat) (buf : List Nat) (off : Nat)
    (h : off + data.length ≤ buf.length) :
    readBytes (writeBytes buf off data) off data.length = data :=
  readBytes_eq_self data _ off fun k hk =>
    readByte_writeBytes_get data buf off k hk (by omega)

theorem readBytes_add (m n : Nat) : ∀ (buf : List Nat) (off : Nat),
    readBytes buf off (m + n) = readBytes buf off m ++ readBytes buf (off + m) n := by
  induction m with
  | zero => intro buf off; simp [readBytes]
  | succ m ih =>
    intro buf off
    rw [show m + 1 + n = (m + n) + 1 by omega, readBytes, readBytes, ih]
    simp only [List.cons_append, List.cons.injEq, true_and]
    rw [show off + 1 + m = off + (m + 1) by omega]

theorem readU16_of_bytes (buf : List Nat) (i v : Nat) (hv : v < 65536)
    (h : readBytes buf i 2 = bytesOfU16 v) : readU16 buf i = v := by
  have hu : readBytes buf i 2 = [readByte buf i, readByte buf (i + 1)] := rfl
  rw [hu, bytesOfU16] at h
  simp only [List.cons.injEq, and_true] at h
  obtain ⟨h0, h1⟩ := h
  simp only [readU16, h0, h1]
  omega

theorem readU32_of_bytes (buf : List Nat) (i v : Nat) (hv : v < 4294967296)
    (h : readBytes buf i 4 = bytesOfU32 v) : readU32 buf i = v := by
  have hu : readBytes buf i 4 =
      [readByte buf i, readByte buf (i + 1), readByte buf (i + 1 + 1),
        readByte buf (i + 1 + 1 + 1)] := rfl
  rw [hu, bytesOfU32] at h
  simp only [List.cons.injEq, and_true] at h
  obtain ⟨h0, h1, h2, h3⟩ := h
  have e2 : i + 2 = i + 1 + 1 := by omega
  have e3 : i + 3 = i + 1 + 1 + 1 := by omega
  simp only [readU32, e2, e3, h0, h1, h2, h3]
  omega

theorem readU64_of_bytes (buf : List Nat) (i v : Nat) (hv : v < 18446744073709551616)
    (h : readBytes buf i 8 = bytesOfU64 v) : readU64 buf i = v := by
  rw [show (8 : Nat) = 4 + 4 by rfl, readBytes_add] at h
  rw [bytesOfU64] at h
  have hlen : (readBytes buf i 4).length = (bytesOfU32 (v % 4294967296)).length := by
    simp [readBytes, bytesOfU32]
  obtain ⟨hA, hB⟩ := List.append_inj h hlen
  rw [readU64, readU32_of_bytes buf i _ (by omega) hA,
    readU32_of_bytes buf (i + 4) _ (by omega) hB]
  omega

theorem readU16_congr (b1 b2 : List Nat) (i : Nat)
    (h : ∀ k, k < 2 → readByte b1 (i + k) = readByte b2 (i + k)) :
    readU16 b1 i = readU16 b2 i := by
  have h0 := h 0 (by omega)
  have h1 := h 1 (by omega)
  simp only [Nat.add_zero] at h0
  simp only [readU16, h0, h1]

theorem readU32_congr (b1 b2 : List Nat) (i : Nat)
    (h : ∀ k, k < 4 → readByte b1 (i + k) = readByte b2 (i + k)) :
    readU32 b1 i = readU32 b2 i := by
  have h0 := h 0 (by omega)
  have h1 := h 1 (by omega)
  have h2 := h 2 (by omega)
  have h3 := h 3 (by omega)
  simp only [Nat.add_zero] at h0
  simp only [readU32, h0, h1, h2, h3]

theorem MNL_ALIGN_def (n : Nat) : MNL_ALIGN n = (n + 3) - (n + 3) % 4 := by
  simp [MNL_ALIGN, MNL_ALIGNTO]

theorem MNL_ALIGN_mod (n : Nat) : MNL_ALIGN n % 4 = 0 := by
  rw [MNL_ALIGN_def]; omega

theorem le_MNL_ALIGN (n : Nat) : n ≤ MNL_ALIGN n := by
  rw [MNL_ALIGN_def]; omega

theorem MNL_ALIGN_lt (n : Nat) : MNL_ALIGN n < n + 4 := by
  rw [MNL_ALIGN_def]; omega

theorem MNL_ALIGN_eq_self (n : Nat) (h : n % 4 = 0) : MNL_ALIGN n = n := by
  rw [MNL_ALIGN_def]; omega

/-! ## Lemmas about the validity guards and the guard-driven walks -/

theorem toInt32_of_lt (n : Nat) (h : n < 2147483648) : toInt32 n = n := by
  rw [toInt32]
  split <;> omega

theorem mnl_attr_ok_iff (nla_len : Nat) (len : Int) :
    mnl_attr_ok nla_len len = true ↔
      (4 : Int) ≤ len ∧ 4 ≤ nla_len ∧ (nla_len : Int) ≤ len := by
  simp [mnl_attr_ok, MNL_ATTR_HDRLEN, and_assoc]

theorem mnl_nlmsg_ok_iff_of_lt (nlmsg_len : Nat) (len : Int) (h : nlmsg_len < 2147483648) :
    mnl_nlmsg_ok nlmsg_len len = true ↔
      (16 : Int) ≤ len ∧ 16 ≤ nlmsg_len ∧ (nlmsg_len : Int) ≤ len := by
  simp [mnl_nlmsg_ok, MNL_NLMSG_HDRLEN, toInt32_of_lt nlmsg_len h, and_assoc]

theorem attrWalk_length_le (buf : List Nat) : ∀ (fuel : Nat) (pos : Nat) (len : Int),
    (attrWalk buf fuel pos len).length ≤ len.toNat / 4 := by
  intro fuel
  induction fuel with
  | zero => intro pos len; simp [attrWalk]
  | succ fuel ih =>
    intro pos len
    rw [attrWalk]
    split
    case isTrue h =>
      obtain ⟨h1, h2, h3⟩ := (mnl_attr_ok_iff _ _).mp h
      have h4 : 4 ≤ MNL_ALIGN (readU16 buf pos) :=
        le_trans h2 (le_MNL_ALIGN _)
      have := ih (pos + MNL_ALIGN (readU16 buf pos))
        (len - (MNL_ALIGN (readU16 buf pos) : Int))
      simp only [List.length_cons]
      omega
    case isFalse h => simp

theorem attrWalkReads_lt (buf : List Nat) (L : Int) : ∀ (fuel : Nat) (pos : Nat) (len : Int),
    (pos : Int) + len ≤ L →
    ∀ r ∈ attrWalkReads buf fuel pos len, (r : Int) < L := by
  intro fuel
  induction fuel with
  | zero => intro pos len _ r hr; simp [attrWalkReads] at hr
  | succ fuel ih =>
    intro pos len hsum r hr
    rw [attrWalkReads] at hr
    split at hr
    case isTrue h =>
      obtain ⟨h1, h2, h3⟩ := (mnl_attr_ok_iff _ _).mp h
      simp only [List.mem_cons] at hr
      rcases hr with rfl | rfl | hr
      · omega
      · omega
      · refine ih (pos + MNL_ALIGN (readU16 buf pos))
          (len - (MNL_ALIGN (readU16 buf pos) : Int)) (by push_cast; omega) r hr
    case isFalse h =>
      split at hr
      case isTrue h4 =>
        simp only [List.mem_cons, List.not_mem_nil, or_false] at hr
        simp only [MNL_ATTR_HDRLEN] at h4
        rcases hr with rfl | rfl <;> omega
      case isFalse h4 => simp at hr

theorem nlmsgAdvance_of_lt (m : Nat) (hm : m < 2147483648) :
    nlmsgAdvance m = MNL_ALIGN m := by
  rw [nlmsgAdvance, MNL_ALIGN_def, Nat.mod_eq_of_lt (by omega)]

theorem nlmsgNextLen_exact (m : Nat) (len : Int) (hm : m < 2147483648)
    (h0 : 0 ≤ len) (hlen : len < 2147483648) (hA : (m : Int) ≤ len + 3) :
    nlmsgNextLen len m = len - (MNL_ALIGN m : Int) := by
  rw [nlmsgNextLen, nlmsgAdvance_of_lt m hm, toUInt32, toInt32, MNL_ALIGN_def]
  have halign : MNL_ALIGN m = (m + 3) - (m + 3) % 4 := MNL_ALIGN_def m
  split
  case isTrue h => omega
  case isFalse h => omega

theorem nlmsgWalk_length_le (buf : List Nat)
    (H : ∀ p, readU32 buf p < 2147483648) : ∀ (fuel : Nat) (pos : Nat) (len : Int),
    len < 2147483648 → (nlmsgWalk buf fuel pos len).length ≤ len.toNat / 4 := by
  intro fuel
  induction fuel with
  | zero => intro pos len _; simp [nlmsgWalk]
  | succ fuel ih =>
    intro pos len hlen
    rw [nlmsgWalk]
    split
    case isTrue h =>
      obtain ⟨h1, h2, h3⟩ := (mnl_nlmsg_ok_iff_of_lt _ _ (H pos)).mp h
      rw [nlmsgNextLen_exact _ _ (H pos) (by omega) hlen (by omega)]
      have h4 : 16 ≤ MNL_ALIGN (readU32 buf pos) :=
        le_trans h2 (le_MNL_ALIGN _)
      have := ih (pos + nlmsgAdvance (readU32 buf pos))
        (len - (MNL_ALIGN (readU32 buf pos) : Int)) (by omega)
      simp only [List.length_cons]
      omega
    case isFalse h => simp

theorem nlmsgWalkReads_lt (buf : List Nat) (L : Int) (hL : L < 2147483648)
    (H : ∀ p, readU32 buf p < 2147483648) : ∀ (fuel : Nat) (pos : Nat) (len : Int),
    (pos : Int) + len ≤ L →
    ∀ r ∈ nlmsgWalkReads buf fuel pos len, (r : Int) < L := by
  intro fuel
  induction fuel with
  | zero => intro pos len _ r hr; simp [nlmsgWalkReads] at hr
  | succ fuel ih =>
    intro pos len hsum r hr
    rw [nlmsgWalkReads] at hr
    split at hr
    case isTrue h =>
      obtain ⟨h1, h2, h3⟩ := (mnl_nlmsg_ok_iff_of_lt _ _ (H pos)).mp h
      rw [nlmsgNextLen_exact _ _ (H pos) (by omega) (by omega) (by omega)] at hr
      rw [nlmsgAdvance_of_lt _ (H pos)] at hr
      simp only [List.mem_cons] at hr
      rcases hr with rfl | rfl | rfl | rfl | hr
      · omega
      · omega
      · omega
      · omega
      · refine ih (pos + MNL_ALIGN (readU32 buf pos))
          (len - (MNL_ALIGN (readU32 buf pos) : Int)) (by push_cast; omega) r hr
    case isFalse h =>
      split at hr
      case isTrue h4 =>
        simp only [List.mem_cons, List.not_mem_nil, or_false] at hr
        simp only [MNL_NLMSG_HDRLEN] at h4
        rcases hr with rfl | rfl | rfl | rfl <;> omega
      case isFalse h4 => simp at hr

/-! ## Lemmas about the message builders -/

theorem length_bytesOfU16 (v : Nat) : (bytesOfU16 v).length = 2 := rfl

theorem length_bytesOfU32 (v : Nat) : (bytesOfU32 v).length = 4 := rfl

theorem length_bytesOfU64 (v : Nat) : (bytesOfU64 v).length = 8 := rfl

theorem length_writeU16 (buf : List Nat) (i v : Nat) :
    (writeU16 buf i v).length = buf.length := length_writeBytes _ _ _

theorem length_writeU32 (buf : List Nat) (i v : Nat) :
    (writeU32 buf i v).length = buf.length := length_writeBytes _ _ _

theorem readU16_writeU16 (buf : List Nat) (i v : Nat) (hv : v < 65536)
    (hin : i + 2 ≤ buf.length) : readU16 (writeU16 buf i v) i = v :=
  readU16_of_bytes _ i v hv
    (by rw [writeU16, show (2 : Nat) = (bytesOfU16 v).length from rfl]
        exact readBytes_writeBytes _ buf i (by rw [length_bytesOfU16]; omega))

theorem readU32_writeU32 (buf : List Nat) (i v : Nat) (hv : v < 4294967296)
    (hin : i + 4 ≤ buf.length) : readU32 (writeU32 buf i v) i = v :=
  readU32_of_bytes _ i v hv
    (by rw [writeU32, show (4 : Nat) = (bytesOfU32 v).length from rfl]
        exact readBytes_writeBytes _ buf i (by rw [length_bytesOfU32]; omega))

theorem put_header_readU32 (buf : List Nat) (h : 16 ≤ buf.length) :
    readU32 (mnl_nlmsg_put_header buf) 0 = 16 := by
  rw [mnl_nlmsg_put_header, MNL_NLMSG_HDRLEN]
  exact readU32_writeU32 _ 0 16 (by omega) (by rw [length_writeBytes]; omega)

theorem length_put_header (buf : List Nat) :
    (mnl_nlmsg_put_header buf).length = buf.length := by
  rw [mnl_nlmsg_put_header, length_writeU32, length_writeBytes]

theorem mnl_attr_put_spec (buf : List Nat) (t : Nat) (data : List Nat) (W : Nat)
    (hW : readU32 buf 0 = W) (hal : W % 4 = 0) (h16 : 16 ≤ W)
    (hlen : MNL_ATTR_HDRLEN + data.length < 65536)
    (hcap : W + MNL_ALIGN (MNL_ATTR_HDRLEN + data.length) ≤ buf.length)
    (hbuf : buf.length < 4294967296) :
    (mnl_attr_put buf t data).length = buf.length ∧
    readU32 (mnl_attr_put buf t data) 0 = W + MNL_ALIGN (MNL_ATTR_HDRLEN + data.length) ∧
    (∀ i, 4 ≤ i → i < W → readByte (mnl_attr_put buf t data) i = readByte buf i) ∧
    readU16 (mnl_attr_put buf t data) W = MNL_ATTR_HDRLEN + data.length ∧
    readU16 (mnl_attr_put buf t data) (W + 2) = t % 65536 ∧
    readBytes (mnl_attr_put buf t data) (W + MNL_ATTR_HDRLEN) data.length = data := by
  have htail : mnl_nlmsg_get_payload_tail buf = W := by
    rw [mnl_nlmsg_get_payload_tail, hW, MNL_ALIGN_eq_self _ hal]
  have hAL : MNL_ATTR_HDRLEN + data.length ≤ MNL_ALIGN (MNL_ATTR_HDRLEN + data.length) :=
    le_MNL_ALIGN _
  have hpl : (MNL_ALIGN MNL_ATTR_HDRLEN + data.length) % 65536 =
      MNL_ATTR_HDRLEN + data.length := by
    rw [MNL_ALIGN_eq_self MNL_ATTR_HDRLEN (by rw [MNL_ATTR_HDRLEN])]
    exact Nat.mod_eq_of_lt hlen
  rw [mnl_attr_put]
  simp only [htail, hpl]
  set b1 := writeU16 buf (W + 2) (t % 65536) with hb1
  set b2 := writeU16 b1 W (MNL_ATTR_HDRLEN + data.length) with hb2
  set b3 := writeBytes b2 (W + MNL_ATTR_HDRLEN) data with hb3
  have hl1 : b1.length = buf.length := length_writeU16 _ _ _
  have hl2 : b2.length = buf.length := by rw [hb2, length_writeU16, hl1]
  have hl3 : b3.length = buf.length := by rw [hb3, length_writeBytes, hl2]
  have hMA : MNL_ATTR_HDRLEN = 4 := rfl
  -- bytes below W + 2 are untouched by b1, below W by b2, below W + 4 by b3
  have hby1 : ∀ i, i < W + 2 → readByte b1 i = readByte buf i := fun i hi =>
    readByte_writeBytes_of_lt _ _ _ _ hi
  have hby2 : ∀ i, i < W → readByte b2 i = readByte b1 i := fun i hi =>
    readByte_writeBytes_of_lt _ _ _ _ hi
  have hby3 : ∀ i, i < W + MNL_ATTR_HDRLEN → readByte b3 i = readByte b2 i := fun i hi =>
    readByte_writeBytes_of_lt _ _ _ _ hi
  have hlow : ∀ i, i < W → readByte b3 i = readByte buf i := by
    intro i hi
    rw [hby3 i (by omega), hby2 i hi, hby1 i (by omega)]
  have hr3 : readU32 b3 0 = W := by
    rw [← hW]
    refine readU32_congr _ _ 0 fun k hk => ?_
    simp only [Nat.zero_add]
    exact hlow k (by omega)
  have hval : (W + MNL_ALIGN (MNL_ATTR_HDRLEN + data.length)) % 4294967296 =
      W + MNL_ALIGN (MNL_ATTR_HDRLEN + data.length) := Nat.mod_eq_of_lt (by omega)
  rw [hr3, hval]
  set b4 := writeU32 b3 0 (W + MNL_ALIGN (MNL_ATTR_HDRLEN + data.length)) with hb4
  have hl4 : b4.length = buf.length := by rw [hb4, length_writeU32, hl3]
  have hby4 : ∀ i, 4 ≤ i → readByte b4 i = readByte b3 i := by
    intro i hi
    exact readByte_writeBytes_of_ge _ _ _ _ (by rw [length_bytesOfU32]; omega)
  refine ⟨hl4, ?_, ?_, ?_, ?_, ?_⟩
  · rw [hb4]
    exact readU32_writeU32 _ 0 _ (by omega) (by rw [hl3]; omega)
  · intro i h4i hiW
    rw [hby4 i h4i, hlow i hiW]
  · have e1 : readU16 b2 W = MNL_ATTR_HDRLEN + data.length :=
      readU16_writeU16 _ _ _ (by omega) (by rw [hl1]; omega)
    have e2 : readU16 b3 W = readU16 b2 W :=
      readU16_congr _ _ W fun k hk => hby3 (W + k) (by omega)
    have e3 : readU16 b4 W = readU16 b3 W :=
      readU16_congr _ _ W fun k hk => hby4 (W + k) (by omega)
    rw [e3, e2, e1]
  · have e1 : readU16 b1 (W + 2) = t % 65536 :=
      readU16_writeU16 _ _ _ (by omega) (by omega)
    have e2 : readU16 b2 (W + 2) = readU16 b1 (W + 2) :=
      readU16_congr _ _ (W + 2) fun k hk =>
        readByte_writeBytes_of_ge _ _ _ _ (by rw [length_bytesOfU16]; omega)
    have e3 : readU16 b3 (W + 2) = readU16 b2 (W + 2) :=
      readU16_congr _ _ (W + 2) fun k hk => hby3 (W + 2 + k) (by omega)
    have e4 : readU16 b4 (W + 2) = readU16 b3 (W + 2) :=
      readU16_congr _ _ (W + 2) fun k hk => hby4 (W + 2 + k) (by omega)
    rw [e4, e3, e2, e1]
  · have e1 : readBytes b3 (W + MNL_ATTR_HDRLEN) data.length = data :=
      readBytes_writeBytes data b2 _ (by rw [hl2]; omega)
    have e2 : readBytes b4 (W + MNL_ATTR_HDRLEN) data.length =
        readBytes b3 (W + MNL_ATTR_HDRLEN) data.length :=
      readBytes_congr _ _ _ _ fun k hk => hby4 (W + MNL_ATTR_HDRLEN + k) (by omega)
    rw [e2, e1]

theorem attrsAt_congr (attrs : List (Nat × List Nat)) : ∀ (b1 b2 : List Nat) (off : Nat),
    (∀ i, off ≤ i → readByte b2 i = readByte b1 i) →
    attrsAt b1 off attrs → attrsAt b2 off attrs := by
  induction attrs with
  | nil => intro b1 b2 off _ _; trivial
  | cons a rest ih =>
    obtain ⟨t, p⟩ := a
    intro b1 b2 off h hat
    obtain ⟨h1, h2, h3, h4⟩ := hat
    refine ⟨?_, ?_, ?_, ?_⟩
    · rw [← h1]
      exact readU16_congr _ _ _ fun k hk => h (off + k) (by omega)
    · rw [← h2]
      exact readU16_congr _ _ _ fun k hk => h (off + 2 + k) (by omega)
    · refine (readBytes_congr p.length b2 b1 (off + MNL_ATTR_HDRLEN) ?_).trans h3
      intro k hk
      exact h (off + MNL_ATTR_HDRLEN + k) (by rw [show MNL_ATTR_HDRLEN = 4 from rfl]; omega)
    · exact ih b1 b2 _ (fun i hi => h i (by omega)) h4

theorem applyPutOp_eq (buf : List Nat) (op : PutOp) :
    applyPutOp buf op = mnl_attr_put buf (putOpType op) (putOpPayload op) := by
  cases op <;> rfl

theorem WFPutOp_payload_lt (op : PutOp) (h : WFPutOp op) :
    MNL_ATTR_HDRLEN + (putOpPayload op).length < 65536 := by
  cases op <;>
    simp only [putOpPayload, WFPutOp, MNL_ATTR_HDRLEN, List.length_cons, List.length_nil,
      length_bytesOfU16, length_bytesOfU32, length_bytesOfU64, List.length_append] at h ⊢ <;>
    omega

theorem putsTotal_nil : putsTotal [] = 0 := rfl

theorem putsTotal_cons (op : PutOp) (ops : List PutOp) :
    putsTotal (op :: ops) =
      MNL_ALIGN (MNL_ATTR_HDRLEN + (putOpPayload op).length) + putsTotal ops := by
  simp [putsTotal, encodePutOp, attrsSizes]

theorem applyPutOps_layout (ops : List PutOp) : ∀ (buf : List Nat) (W : Nat),
    (∀ op ∈ ops, WFPutOp op) → readU32 buf 0 = W → W % 4 = 0 → 16 ≤ W →
    W + putsTotal ops ≤ buf.length → buf.length < 4294967296 →
    (applyPutOps buf ops).length = buf.length ∧
    readU32 (applyPutOps buf ops) 0 = W + putsTotal ops ∧
    (∀ i, 4 ≤ i → i < W → readByte (applyPutOps buf ops) i = readByte buf i) ∧
    attrsAt (applyPutOps buf ops) W (ops.map encodePutOp) := by
  induction ops with
  | nil =>
    intro buf W _ hW _ _ _ _
    refine ⟨rfl, ?_, fun i _ _ => rfl, trivial⟩
    show readU32 buf 0 = W + putsTotal []
    rw [putsTotal_nil, hW]
    omega
  | cons op ops ih =>
    intro buf W hwf hW hal h16 hcap hbuf
    have hwfh := hwf op (by simp)
    have hwft : ∀ o ∈ ops, WFPutOp o := fun o ho => hwf o (by simp [ho])
    have hplt := WFPutOp_payload_lt op hwfh
    rw [putsTotal_cons] at hcap
    set p := putOpPayload op with hp
    set A := MNL_ALIGN (MNL_ATTR_HDRLEN + p.length) with hA
    have hA4 : MNL_ATTR_HDRLEN + p.length ≤ A := le_MNL_ALIGN _
    have hAmod : A % 4 = 0 := MNL_ALIGN_mod _
    have happly : applyPutOps buf (op :: ops) = applyPutOps (applyPutOp buf op) ops := rfl
    obtain ⟨pl, pr, pbytes, ph1, ph2, ph3⟩ :=
      mnl_attr_put_spec buf (putOpType op) p W hW hal h16 hplt (by omega) hbuf
    rw [← applyPutOp_eq] at pl pr pbytes ph1 ph2 ph3
    obtain ⟨fl, fr, fbytes, fat⟩ := ih (applyPutOp buf op) (W + A) hwft
      (by rw [pr]) (by omega) (by omega) (by omega) (by omega)
    have hMA4 : MNL_ATTR_HDRLEN = 4 := rfl
    refine ⟨by rw [happly, fl, pl], ?_, ?_, ?_⟩
    · rw [happly, fr, putsTotal_cons, ← hp, ← hA]
      omega
    · intro i h4 hiW
      rw [happly, fbytes i h4 (by omega), pbytes i h4 hiW]
    · rw [happly, List.map_cons]
      refine ⟨?_, ?_, ?_, ?_⟩
      · refine (readU16_congr (applyPutOps (applyPutOp buf op) ops) (applyPutOp buf op) W
          ?_).trans ph1
        intro k hk
        exact fbytes (W + k) (by omega) (by omega)
      · refine (readU16_congr (applyPutOps (applyPutOp buf op) ops) (applyPutOp buf op) (W + 2)
          ?_).trans ph2
        intro k hk
        exact fbytes (W + 2 + k) (by omega) (by omega)
      · refine (readBytes_congr p.length (applyPutOps (applyPutOp buf op) ops)
          (applyPutOp buf op) (W + MNL_ATTR_HDRLEN) ?_).trans ph3
        intro k hk
        exact fbytes (W + MNL_ATTR_HDRLEN + k) (by omega) (by omega)
      · exact fat

theorem attrsSizes_ge (attrs : List (Nat × List Nat)) :
    4 * attrs.length ≤ attrsSizes attrs := by
  induction attrs with
  | nil => simp [attrsSizes]
  | cons a rest ih =>
    obtain ⟨t, p⟩ := a
    have h4 : 4 ≤ MNL_ALIGN (MNL_ATTR_HDRLEN + p.length) :=
      le_trans (by rw [show MNL_ATTR_HDRLEN = 4 from rfl]; omega) (le_MNL_ALIGN _)
    simp only [attrsSizes, List.length_cons]
    omega

theorem attrWalk_of_attrsAt (attrs : List (Nat × List Nat)) :
    ∀ (buf : List Nat) (pos : Nat) (fuel : Nat),
    attrsAt buf pos attrs → (∀ a ∈ attrs, MNL_ATTR_HDRLEN + a.2.length < 65536) →
    attrs.length < fuel →
    attrWalk buf fuel pos (attrsSizes attrs : Int) = attrOffsets pos attrs := by
  induction attrs with
  | nil =>
    intro buf pos fuel _ _ hfuel
    match fuel, hfuel with
    | fuel + 1, _ =>
      have hok : ¬ (mnl_attr_ok (readU16 buf pos)
          ((attrsSizes ([] : List (Nat × List Nat))) : Int) = true) := by
        intro hok
        obtain ⟨g1, -, -⟩ := (mnl_attr_ok_iff _ _).mp hok
        simp [attrsSizes] at g1
      rw [attrWalk, if_neg hok, attrOffsets]
  | cons a rest ih =>
    obtain ⟨t, p⟩ := a
    intro buf pos fuel hat hwf hfuel
    obtain ⟨h1, h2, h3, h4⟩ := hat
    have hwfh := hwf (t, p) (by simp)
    simp only [MNL_ATTR_HDRLEN] at hwfh
    match fuel, hfuel with
    | fuel + 1, hfuel =>
      have hA4 : MNL_ATTR_HDRLEN + p.length ≤ MNL_ALIGN (MNL_ATTR_HDRLEN + p.length) :=
        le_MNL_ALIGN _
      have hMA : MNL_ATTR_HDRLEN = 4 := rfl
      have hsz : attrsSizes ((t, p) :: rest) =
          MNL_ALIGN (MNL_ATTR_HDRLEN + p.length) + attrsSizes rest := rfl
      have hok : mnl_attr_ok (readU16 buf pos)
          ((attrsSizes ((t, p) :: rest)) : Int) = true := by
        rw [mnl_attr_ok_iff, h1, hsz]
        push_cast
        refine ⟨by omega, by omega, by omega⟩
      rw [attrWalk, if_pos hok, h1, attrOffsets]
      congr 1
      have hlen : ((attrsSizes ((t, p) :: rest)) : Int) -
          (MNL_ALIGN (MNL_ATTR_HDRLEN + p.length) : Int) = (attrsSizes rest : Int) := by
        rw [hsz]; push_cast; omega
      rw [hlen]
      refine ih buf _ fuel h4 (fun a ha => hwf a (by simp [ha])) ?_
      simp only [List.length_cons] at hfuel
      omega

theorem payload_len_of_attrsAt (buf : List Nat) (pos : Nat) (p : List Nat)
    (h1 : readU16 buf pos = MNL_ATTR_HDRLEN + p.length) (hlt : MNL_ATTR_HDRLEN + p.length < 65536) :
    mnl_attr_get_payload_len buf pos = p.length := by
  rw [mnl_attr_get_payload_len, h1, show MNL_ATTR_HDRLEN = 4 from rfl] at *
  omega

theorem getterMatches_of_attrsAt (ops : List PutOp) : ∀ (buf : List Nat) (pos : Nat),
    attrsAt buf pos (ops.map encodePutOp) → (∀ op ∈ ops, WFPutOp op) →
    List.Forall₂ (getterMatches buf) (attrOffsets pos (ops.map encodePutOp)) ops := by
  induction ops with
  | nil => intro buf pos _ _; exact List.Forall₂.nil
  | cons op ops ih =>
    intro buf pos hat hwf
    rw [List.map_cons] at hat ⊢
    obtain ⟨h1, h2, h3, h4⟩ := hat
    have hwfh := hwf op (by simp)
    rw [show attrOffsets pos ((encodePutOp op) :: ops.map encodePutOp) =
      pos :: attrOffsets (pos + MNL_ALIGN (MNL_ATTR_HDRLEN + (putOpPayload op).length))
        (ops.map encodePutOp) from rfl]
    refine List.Forall₂.cons ?_ (ih buf _ h4 fun o ho => hwf o (by simp [ho]))
    show getterMatches buf pos op
    have hplen : mnl_attr_get_payload_len buf pos = (putOpPayload op).length :=
      payload_len_of_attrsAt buf pos (putOpPayload op) h1
        (WFPutOp_payload_lt op hwfh)
    cases op with
    | pu8 t v =>
      simp only [putOpPayload] at h3
      have : readBytes buf (pos + MNL_ATTR_HDRLEN) 1 = [v % 256] := h3
      have hb : readByte buf (pos + MNL_ATTR_HDRLEN) = v % 256 := by
        have := congrArg (fun l => l.getD 0 0) this
        simpa [readBytes] using this
      show mnl_attr_get_u8 buf pos = v
      rw [mnl_attr_get_u8, hb, Nat.mod_eq_of_lt hwfh]
    | pu16 t v =>
      simp only [putOpPayload] at h3
      show mnl_attr_get_u16 buf pos = v
      rw [mnl_attr_get_u16, readU16_of_bytes _ _ (v % 65536) (by omega) h3,
        Nat.mod_eq_of_lt hwfh]
    | pu32 t v =>
      simp only [putOpPayload] at h3
      show mnl_attr_get_u32 buf pos = v
      rw [mnl_attr_get_u32, readU32_of_bytes _ _ (v % 4294967296) (by omega) h3,
        Nat.mod_eq_of_lt hwfh]
    | pu64 t v =>
      simp only [putOpPayload] at h3
      show mnl_attr_get_u64 buf pos = v
      rw [mnl_attr_get_u64, readU64_of_bytes _ _ (v % 18446744073709551616) (by omega) h3,
        Nat.mod_eq_of_lt hwfh]
    | pstr t str =>
      simp only [putOpPayload] at h3 hplen
      show mnl_attr_get_str buf pos = str
      rw [mnl_attr_get_str, hplen, h3]
    | pstrz t str =>
      simp only [putOpPayload] at h3 hplen
      show mnl_attr_get_str buf pos = str ++ [0]
      rw [mnl_attr_get_str, hplen, h3]

theorem encode_wf (ops : List PutOp) (hwf : ∀ op ∈ ops, WFPutOp op) :
    ∀ a ∈ ops.map encodePutOp, MNL_ATTR_HDRLEN + a.2.length < 65536 := by
  intro a ha
  obtain ⟨op, hop, rfl⟩ := List.mem_map.mp ha
  exact WFPutOp_payload_lt op (hwf op hop)

/-- Claim C3: for every sequence of typed put calls appended to a message
freshly initialised with mnl_nlmsg_put_header into a sufficiently large
buffer, mnl_attr_parse at offset 0 invokes its callback exactly once per
appended attribute, in append order (the visited offsets are exactly the
offsets of the appended attributes), and applying the matching typed getter
to the i-th visited attribute returns exactly the i-th value written. -/
theorem claim_C3_roundtrip (buf : List Nat) (ops : List PutOp)
    (hwf : ∀ op ∈ ops, WFPutOp op)
    (hcap : MNL_NLMSG_HDRLEN + putsTotal ops ≤ buf.length)
    (hbuf : buf.length < 2147483648) :
    mnl_attr_parse_offsets (applyPutOps (mnl_nlmsg_put_header buf) ops) 0 =
      attrOffsets MNL_NLMSG_HDRLEN (ops.map encodePutOp) ∧
    List.Forall₂ (getterMatches (applyPutOps (mnl_nlmsg_put_header buf) ops))
      (attrOffsets MNL_NLMSG_HDRLEN (ops.map encodePutOp)) ops := by
  have hH : MNL_NLMSG_HDRLEN = 16 := rfl
  have h16le : 16 ≤ buf.length := by omega
  have hr0 : readU32 (mnl_nlmsg_put_header buf) 0 = 16 := put_header_readU32 buf h16le
  have hl0 : (mnl_nlmsg_put_header buf).length = buf.length := length_put_header buf
  obtain ⟨fl, fr, fbytes, fat⟩ := applyPutOps_layout ops (mnl_nlmsg_put_header buf) 16 hwf
    hr0 (by omega) (by omega) (by omega) (by omega)
  have hT : putsTotal ops = attrsSizes (ops.map encodePutOp) := rfl
  have hMAL0 : MNL_ALIGN 0 = 0 := MNL_ALIGN_eq_self 0 (by omega)
  have hlen : mnl_attr_parse_len (applyPutOps (mnl_nlmsg_put_header buf) ops) 0 =
      (attrsSizes (ops.map encodePutOp) : Int) := by
    rw [mnl_attr_parse_len, fr, hMAL0, hH, hT]
    push_cast
    omega
  have hstart : MNL_NLMSG_HDRLEN + MNL_ALIGN 0 = MNL_NLMSG_HDRLEN := by
    rw [hMAL0]
    omega
  have hfuel : (ops.map encodePutOp).length <
      (mnl_attr_parse_len (applyPutOps (mnl_nlmsg_put_header buf) ops) 0).toNat / 4 + 1 := by
    rw [hlen]
    have := attrsSizes_ge (ops.map encodePutOp)
    simp only [Int.toNat_natCast]
    omega
  constructor
  · rw [mnl_attr_parse_offsets, hlen, hstart]
    refine attrWalk_of_attrsAt (ops.map encodePutOp) _ MNL_NLMSG_HDRLEN _ fat
      (encode_wf ops hwf) ?_
    rw [← hlen]
    exact hfuel
  · exact getterMatches_of_attrsAt ops _ MNL_NLMSG_HDRLEN fat hwf

theorem __ret_zero_iff (t : Nat) (payload : List Nat) (exp_len : Nat) :
    (__mnl_attr_validate t payload exp_len).ret = 0 ↔
      ¬ (payload.length < exp_len) ∧
      ¬ (t = MNL_TYPE_FLAG ∧ 0 < payload.length) ∧
      ¬ (t = MNL_TYPE_NUL_STRING ∧ payload.length = 0) ∧
      ¬ (t = MNL_TYPE_NUL_STRING ∧ payload.getD (payload.length - 1) 0 ≠ 0) ∧
      ¬ (t = MNL_TYPE_STRING ∧ payload.length = 0) ∧
      ¬ (t = MNL_TYPE_NESTED ∧ payload.length ≠ 0 ∧ payload.length < MNL_ATTR_HDRLEN) ∧
      ¬ (exp_len ≠ 0 ∧ exp_len < payload.length) := by
  rw [__mnl_attr_validate]
  split_ifs <;> simp_all

/-! ## The claims -/

/-- Claim C1, as stated, is false: on the 100-byte buffer whose first
message declares nlmsg_len = 0xFFFFFFFC, the guard-driven nlmsg iteration
reads the bytes at offsets 4294967292 and beyond during its second guard
evaluation, far beyond the remaining length 100: the (int) cast in
mnl_nlmsg_ok wraps the huge declared length to -4, the guard passes, and
mnl_nlmsg_next jumps the cursor almost 4 GiB forward while the wrapping
length update leaves the remaining length positive. -/
theorem claim_C1_counterexample :
    (4294967292 : Nat) ∈
      nlmsgWalkReads (bytesOfU32 4294967292 ++ List.replicate 96 0) 2 0 100 ∧
    ¬ ((4294967292 : Nat) < 100) := by decide

/-- Claim C1 (amended): the attribute iteration reads only offsets below the
remaining length and makes at most remaining_len / 4 steps, for every buffer
and fuel (the universal fuel bound is termination); the message iteration
satisfies the same bounds provided every nlmsg_len value readable from the
buffer is below 2^31, so that the (int) cast of the guard cannot wrap. -/
theorem claim_C1_amended :
    (∀ (buf : List Nat) (L : Nat) (fuel : Nat),
      (∀ r ∈ attrWalkReads buf fuel 0 (L : Int), r < L) ∧
      (attrWalk buf fuel 0 (L : Int)).length ≤ L / 4) ∧
    (∀ (buf : List Nat) (L : Nat) (fuel : Nat),
      (∀ p, readU32 buf p < 2147483648) → L < 2147483648 →
      (∀ r ∈ nlmsgWalkReads buf fuel 0 (L : Int), r < L) ∧
      (nlmsgWalk buf fuel 0 (L : Int)).length ≤ L / 4) := by
  constructor
  · intro buf L fuel
    constructor
    · intro r hr
      have := attrWalkReads_lt buf (L : Int) fuel 0 (L : Int) (by omega) r hr
      omega
    · have := attrWalk_length_le buf fuel 0 (L : Int)
      simpa using this
  · intro buf L fuel H hL
    constructor
    · intro r hr
      have := nlmsgWalkReads_lt buf (L : Int) (by omega) H fuel 0 (L : Int) (by omega) r hr
      omega
    · have := nlmsgWalk_length_le buf H fuel 0 (L : Int) (by omega)
      simpa using this

/-- Witness for claim C1 (amended) at concrete inputs: a short valid
attribute run and the empty buffer. -/
theorem claim_C1_witness :
    (attrWalk ([12, 0, 5, 0] : List Nat) 9 0 ((12 : Nat) : Int)).length ≤ 12 / 4 ∧
    (nlmsgWalk ([] : List Nat) 5 0 ((20 : Nat) : Int)).length ≤ 20 / 4 := by
  refine ⟨(claim_C1_amended.1 [12, 0, 5, 0] 12 9).2,
    (claim_C1_amended.2 [] 20 5 (fun p => ?_) (by omega)).2⟩
  simp [readU32, readByte]

/-- Claim C2, as stated, is false for mnl_nlmsg_ok: with a declared length
of 2^31 and only 100 remaining bytes the declared length exceeds the
remaining length, so the claim requires false, but the function returns
true because the (int) cast of nlmsg_len wraps to a negative value. -/
theorem claim_C2_counterexample :
    mnl_nlmsg_ok 2147483648 100 = true ∧ (100 : Nat) < 2147483648 := by decide

/-- Claim C2 (amended): mnl_attr_ok returns false exactly when the remaining
length is below the 4-byte attribute header, or the declared nla_len is
below 4, or the declared nla_len exceeds the remaining length (nla_len is a
uint16 field, so its int cast never wraps); mnl_nlmsg_ok satisfies the
corresponding rule with the 16-byte message header provided the declared
nlmsg_len is below 2^31.  Both functions are pure: no side effect, no errno. -/
theorem claim_C2_ok_characterisation :
    (∀ (nla_len : Nat) (len : Int),
      (mnl_attr_ok nla_len len = false ↔
        len < 4 ∨ nla_len < 4 ∨ len < (nla_len : Int))) ∧
    (∀ (nlmsg_len : Nat) (len : Int), nlmsg_len < 2147483648 →
      (mnl_nlmsg_ok nlmsg_len len = false ↔
        len < 16 ∨ nlmsg_len < 16 ∨ len < (nlmsg_len : Int))) := by
  constructor
  · intro nla_len len
    rw [show (mnl_attr_ok nla_len len = false) ↔ ¬ (mnl_attr_ok nla_len len = true) by simp,
      mnl_attr_ok_iff]
    omega
  · intro nlmsg_len len h
    rw [show (mnl_nlmsg_ok nlmsg_len len = false) ↔ ¬ (mnl_nlmsg_ok nlmsg_len len = true) by
      simp, mnl_nlmsg_ok_iff_of_lt _ _ h]
    omega

/-- Witness for claim C2 (amended): a truncated attribute and a truncated
message are both rejected. -/
theorem claim_C2_witness :
    mnl_attr_ok 3 100 = false ∧ mnl_nlmsg_ok 20 10 = false :=
  ⟨(claim_C2_ok_characterisation.1 3 100).mpr (Or.inr (Or.inl (by omega))),
   (claim_C2_ok_characterisation.2 20 10 (by omega)).mpr (Or.inl (by omega))⟩

/-- Claim C6: mnl_nlmsg_seq_ok is true exactly when the message sequence
number is 0, or the expected value is 0, or the two are equal; and
mnl_nlmsg_portid_ok obeys the same rule for the port identifier. -/
theorem claim_C6_seq_portid_ok (s e : Nat) :
    (mnl_nlmsg_seq_ok s e = true ↔ s = 0 ∨ e = 0 ∨ s = e) ∧
    (mnl_nlmsg_portid_ok s e = true ↔ s = 0 ∨ e = 0 ∨ s = e) := by
  constructor
  · rw [mnl_nlmsg_seq_ok]
    split_ifs with h
    · simp only [decide_eq_true_eq]
      tauto
    · simp only [true_iff]
      tauto
  · rw [mnl_nlmsg_portid_ok]
    split_ifs with h
    · simp only [decide_eq_true_eq]
      tauto
    · simp only [true_iff]
      tauto

/-- Claim C4: for every attribute and declared kind below MNL_TYPE_MAX,
mnl_attr_validate returns 0 exactly when the structural rule of the kind
holds on the payload, and mnl_attr_validate2 with a nonzero expected length
returns -1 whenever the payload length differs from it (below or above). -/
theorem claim_C4_validate (t : Nat) (payload : List Nat)
    (ht : t < MNL_TYPE_MAX) (hlen : payload.length ≤ 65531) :
    ((mnl_attr_validate t payload).ret = 0 ↔ structuralRuleC4 t payload) ∧
    (∀ exp_len : Nat, exp_len ≠ 0 → payload.length ≠ exp_len →
      (mnl_attr_validate2 t payload exp_len).ret = -1) := by
  constructor
  · rw [mnl_attr_validate, if_neg (by omega), __ret_zero_iff]
    rw [show MNL_TYPE_MAX = 12 from rfl] at ht
    interval_cases t <;>
      (simp only [structuralRuleC4, mnl_attr_data_type_len, MNL_TYPE_U8, MNL_TYPE_U16,
        MNL_TYPE_U32, MNL_TYPE_U64, MNL_TYPE_STRING, MNL_TYPE_FLAG, MNL_TYPE_MSECS,
        MNL_TYPE_NESTED, MNL_TYPE_NESTED_COMPAT, MNL_TYPE_NUL_STRING, MNL_TYPE_BINARY,
        MNL_ATTR_HDRLEN]) <;>
      norm_num [← List.length_eq_zero] <;> try omega
  · intro exp_len hexp hne
    rw [mnl_attr_validate2, if_neg (by omega), __mnl_attr_validate]
    split_ifs <;> first | rfl | (exfalso; omega)

/-- Witness for claim C4: a one-byte u8 attribute validates, and validate2
rejects it against an expected length of 2. -/
theorem claim_C4_witness :
    (mnl_attr_validate MNL_TYPE_U8 [7]).ret = 0 ∧
    (mnl_attr_validate2 MNL_TYPE_U8 [7] 2).ret = -1 := by
  refine ⟨(claim_C4_validate MNL_TYPE_U8 [7] (by decide) (by decide)).1.mpr ?_,
    (claim_C4_validate MNL_TYPE_U8 [7] (by decide) (by decide)).2 2 (by omega) (by decide)⟩
  rw [structuralRuleC4]
  simp

/-- Claim C5, as stated, is false: a 32-byte error message is long enough to
contain the embedded status value (mnl_nlmsg_size(4) = 20 bytes suffice),
yet mnl_cb_error with embedded status 0 does not return the claimed
stop-success outcome - it rejects the message as MNL_CB_ERROR with errno
EBADMSG, because the length check demands room for the whole struct
nlmsgerr (the status plus the echoed 16-byte message header), 36 bytes. -/
theorem claim_C5_counterexample :
    (mnl_cb_error 32 0).ret ≠ MNL_CB_STOP ∧
    mnl_cb_error 32 0 = ⟨MNL_CB_ERROR, some EBADMSG⟩ ∧
    mnl_nlmsg_size 4 ≤ 32 := by decide

/-- Claim C5 (amended): the built-in error handler rejects any message
shorter than mnl_nlmsg_size(sizeof(struct nlmsgerr)) = 36 bytes - room for
the embedded status plus the echoed 16-byte message header - as
MNL_CB_ERROR with errno EBADMSG, for every status value alike (the status
is not read even when its four bytes are present, as for lengths in
[20, 36)); on messages of at least 36 bytes an embedded status of -13
decodes to MNL_CB_ERROR with errno 13 and an embedded status of 0 decodes
to MNL_CB_STOP. -/
theorem claim_C5_cb_error (nlmsg_len : Nat) :
    (36 ≤ nlmsg_len → mnl_cb_error nlmsg_len (-13) = ⟨MNL_CB_ERROR, some 13⟩) ∧
    (36 ≤ nlmsg_len → (mnl_cb_error nlmsg_len 0).ret = MNL_CB_STOP) ∧
    (nlmsg_len < 36 → ∀ error : Int, mnl_cb_error nlmsg_len error =
      ⟨MNL_CB_ERROR, some EBADMSG⟩) := by
  have h36 : mnl_nlmsg_size 20 = 36 := rfl
  refine ⟨?_, ?_, ?_⟩
  · intro h
    rw [mnl_cb_error, h36, if_neg (by omega)]
    decide
  · intro h
    rw [mnl_cb_error, h36, if_neg (by omega)]
    decide
  · intro h error
    rw [mnl_cb_error, h36, if_pos (by omega)]

/-- Witness for claim C5 (amended) at concrete message lengths, including a
31-byte message whose status bytes are present but ignored. -/
theorem claim_C5_witness :
    mnl_cb_error 36 (-13) = ⟨MNL_CB_ERROR, some 13⟩ ∧
    (mnl_cb_error 36 0).ret = MNL_CB_STOP ∧
    mnl_cb_error 31 5 = ⟨MNL_CB_ERROR, some EBADMSG⟩ :=
  ⟨(claim_C5_cb_error 36).1 (by omega), (claim_C5_cb_error 36).2.1 (by omega),
   (claim_C5_cb_error 31).2.2 (by omega) 5⟩

/-- Claim C7, as stated, is false: a control message of type NLMSG_ERROR
arriving while the caller supplied an override array of length 3 whose
entries are all NULL is silently skipped by mnl_cb_run2, whereas the claim
requires it to reach the built-in error handler (the caller supplied no
handler for that type). -/
theorem claim_C7_counterexample :
    mnl_cb_run2_route NLMSG_ERROR false true (fun _ => false) 3 = CbRoute.skip ∧
    claimRouteC7 NLMSG_ERROR false true (fun _ => false) =
      CbRoute.defaultCb DefaultCb.err ∧
    CbRoute.skip ≠ CbRoute.defaultCb DefaultCb.err := by decide

/-- Claim C7 (amended): data-type messages (at or above NLMSG_MIN_TYPE) go
to the data handler or are skipped when none was supplied; a control type
below the supplied override-array length goes to the override entry when the
array and that entry are non-NULL and is silently skipped otherwise; a
control type at or beyond the override-array length goes to the built-in
default (no-op for NLMSG_NOOP and NLMSG_OVERRUN, error decoding for
NLMSG_ERROR, stop for NLMSG_DONE) and is skipped for the remaining control
types, which have no built-in default. -/
theorem claim_C7_routing (t : Nat) (has_data has_arr : Bool)
    (entry : Nat → Bool) (alen : Nat) :
    (NLMSG_MIN_TYPE ≤ t →
      mnl_cb_run2_route t has_data has_arr entry alen =
        (if has_data then CbRoute.dataCb else CbRoute.skip)) ∧
    (t < NLMSG_MIN_TYPE → t < alen →
      mnl_cb_run2_route t has_data has_arr entry alen =
        (if has_arr && entry t then CbRoute.ctlCb t else CbRoute.skip)) ∧
    (t < NLMSG_MIN_TYPE → alen ≤ t →
      mnl_cb_run2_route t has_data has_arr entry alen =
        (if t = NLMSG_NOOP ∨ t = NLMSG_OVERRUN then CbRoute.defaultCb DefaultCb.noop
         else if t = NLMSG_ERROR then CbRoute.defaultCb DefaultCb.err
         else if t = NLMSG_DONE then CbRoute.defaultCb DefaultCb.stop
         else CbRoute.skip)) := by
  have hmin : NLMSG_MIN_TYPE = 16 := rfl
  refine ⟨?_, ?_, ?_⟩
  · intro h
    rw [mnl_cb_run2_route, if_pos h]
  · intro h1 h2
    rw [mnl_cb_run2_route, if_neg (by omega), if_pos h2]
  · intro h1 h2
    rw [mnl_cb_run2_route, if_neg (by omega), if_neg (by omega)]
    rw [hmin] at h1
    interval_cases t <;> rfl

/-- Witness for claim C7 (amended): NLMSG_DONE with no override array in
range reaches the built-in stop handler; a data-type message reaches the
data handler. -/
theorem claim_C7_witness :
    mnl_cb_run2_route 3 true true (fun _ => false) 0 = CbRoute.defaultCb DefaultCb.stop ∧
    mnl_cb_run2_route 16 true false (fun _ => false) 0 = CbRoute.dataCb :=
  ⟨((claim_C7_routing 3 true true (fun _ => false) 0).2.2 (by decide) (by omega)).trans
      (by decide),
   ((claim_C7_routing 16 true false (fun _ => false) 0).1 (by decide)).trans (by decide)⟩

/-- Claim C9, as stated, is false about the total length: the scenario
message (extra header 4, u32 attribute, "eth0" string attribute) has
nlmsg_len = 16 + align(4) + align(4+4) + align(4+4) = 36, not 40 as the
claim computes (the claim uses align(4+8) = 12 for the string attribute,
but the string payload is the 4 actual bytes of "eth0", so its aligned
on-wire size is align(8) = 8). -/
theorem claim_C9_counterexample :
    readU32 c9msg 0 = 36 ∧ (36 : Nat) ≠ 40 := by decide

/-- Claim C9 (amended): the scenario build parses back as type 5 with u32
value 42 at offset 20 and type 6 with string "eth0" at offset 28, and its
total length field is 36 = 16 + align(4) + align(8) + align(8). -/
theorem claim_C9_scenario :
    mnl_attr_parse_offsets c9msg 4 = [20, 28] ∧
    mnl_attr_get_type c9msg 20 = 5 ∧
    mnl_attr_get_u32 c9msg 20 = 42 ∧
    mnl_attr_get_type c9msg 28 = 6 ∧
    mnl_attr_get_str c9msg 28 = [101, 116, 104, 48] ∧
    readU32 c9msg 0 = MNL_NLMSG_HDRLEN + MNL_ALIGN 4 + MNL_ALIGN 8 + MNL_ALIGN 8 := by
  decide

/-! ## Lemmas about nesting and the nlmsg_len invariant -/

theorem attrsSizes_mod4 (attrs : List (Nat × List Nat)) : attrsSizes attrs % 4 = 0 := by
  induction attrs with
  | nil => rfl
  | cons a rest ih =>
    obtain ⟨t, p⟩ := a
    have := MNL_ALIGN_mod (MNL_ATTR_HDRLEN + p.length)
    simp only [attrsSizes]
    omega

theorem mnl_attr_nest_start_spec (buf : List Nat) (t : Nat) (W : Nat)
    (hW : readU32 buf 0 = W) (hal : W % 4 = 0) (h16 : 16 ≤ W)
    (hcap : W + MNL_ALIGN MNL_ATTR_HDRLEN ≤ buf.length) (hbuf : buf.length < 4294967296) :
    (mnl_attr_nest_start buf t).2 = W ∧
    ((mnl_attr_nest_start buf t).1).length = buf.length ∧
    readU32 (mnl_attr_nest_start buf t).1 0 = W + MNL_ALIGN MNL_ATTR_HDRLEN := by
  have htail : mnl_nlmsg_get_payload_tail buf = W := by
    rw [mnl_nlmsg_get_payload_tail, hW, MNL_ALIGN_eq_self _ hal]
  have hA : MNL_ALIGN MNL_ATTR_HDRLEN = 4 := rfl
  refine ⟨htail, ?_, ?_⟩
  · show (writeU32 (writeU16 buf (mnl_nlmsg_get_payload_tail buf + 2)
      (Nat.lor NLA_F_NESTED t % 65536)) 0 _).length = buf.length
    rw [length_writeU32, length_writeU16]
  · show readU32 (writeU32 (writeU16 buf (mnl_nlmsg_get_payload_tail buf + 2)
      (Nat.lor NLA_F_NESTED t % 65536)) 0
      ((readU32 (writeU16 buf (mnl_nlmsg_get_payload_tail buf + 2)
        (Nat.lor NLA_F_NESTED t % 65536)) 0 + MNL_ALIGN MNL_ATTR_HDRLEN) % 4294967296)) 0 =
      W + MNL_ALIGN MNL_ATTR_HDRLEN
    rw [htail]
    have hr1 : readU32 (writeU16 buf (W + 2) (Nat.lor NLA_F_NESTED t % 65536)) 0 =
        readU32 buf 0 := by
      refine readU32_congr _ _ 0 fun k hk => ?_
      exact readByte_writeBytes_of_lt _ _ _ _ (by omega)
    rw [hr1, hW]
    have hval : (W + MNL_ALIGN MNL_ATTR_HDRLEN) % 4294967296 =
        W + MNL_ALIGN MNL_ATTR_HDRLEN := Nat.mod_eq_of_lt (by omega)
    rw [hval]
    exact readU32_writeU32 _ 0 _ (by omega) (by rw [length_writeU16]; omega)

theorem mnl_attr_nest_end_spec (buf : List Nat) (start : Nat) (v : Nat)
    (hv : ((mnl_nlmsg_get_payload_tail buf : Int) - (start : Int)) % 65536 = (v : Int))
    (hvlt : v < 65536) (hcap : start + 2 ≤ buf.length) :
    readU16 (mnl_attr_nest_end buf start) start = v ∧
    (∀ i, start + 2 ≤ i → readByte (mnl_attr_nest_end buf start) i = readByte buf i) ∧
    (mnl_attr_nest_end buf start).length = buf.length := by
  rw [mnl_attr_nest_end]
  have hto : (((mnl_nlmsg_get_payload_tail buf : Int) - (start : Int)) % 65536).toNat = v := by
    rw [hv]
    omega
  rw [hto]
  refine ⟨readU16_writeU16 _ _ _ hvlt hcap, ?_, length_writeU16 _ _ _⟩
  intro i hi
  exact readByte_writeBytes_of_ge _ _ _ _ (by rw [length_bytesOfU16]; omega)

/-- Claim C8: after mnl_attr_nest_start on a well-formed message under
construction, k typed put operations, and mnl_attr_nest_end at the returned
start offset, the nest attribute carries payload length equal to the sum of
the aligned on-wire sizes of its children (0 when k = 0); mnl_attr_validate
with the nested kind accepts the empty nest; and mnl_attr_parse_nested on
the nest visits exactly the k children, in append order. -/
theorem claim_C8_nesting (buf : List Nat) (t : Nat) (ops : List PutOp) (W : Nat)
    (hW : readU32 buf 0 = W) (hal : W % 4 = 0) (h16 : 16 ≤ W)
    (hwf : ∀ op ∈ ops, WFPutOp op)
    (hfit : MNL_ATTR_HDRLEN + putsTotal ops < 65536)
    (hcap : W + MNL_ATTR_HDRLEN + putsTotal ops ≤ buf.length)
    (hbuf : buf.length < 2147483648) :
    (mnl_attr_nest_start buf t).2 = W ∧
    mnl_attr_get_payload_len
      (mnl_attr_nest_end (applyPutOps (mnl_attr_nest_start buf t).1 ops) W) W =
      putsTotal ops ∧
    (ops = [] →
      (mnl_attr_validate MNL_TYPE_NESTED
        (mnl_attr_get_str
          (mnl_attr_nest_end (applyPutOps (mnl_attr_nest_start buf t).1 ops) W) W)).ret = 0) ∧
    mnl_attr_parse_nested_offsets
      (mnl_attr_nest_end (applyPutOps (mnl_attr_nest_start buf t).1 ops) W) W =
      attrOffsets (W + MNL_ATTR_HDRLEN) (ops.map encodePutOp) := by
  have hA : MNL_ALIGN MNL_ATTR_HDRLEN = 4 := rfl
  have hMA : MNL_ATTR_HDRLEN = 4 := rfl
  obtain ⟨hs2, hl1, hr1⟩ := mnl_attr_nest_start_spec buf t W hW hal h16 (by omega) (by omega)
  obtain ⟨fl, fr, fbytes, fat⟩ := applyPutOps_layout ops (mnl_attr_nest_start buf t).1
    (W + 4) hwf (by rw [hr1, hA]) (by omega) (by omega) (by rw [hl1]; omega)
    (by rw [hl1]; omega)
  have hT4 : putsTotal ops % 4 = 0 := attrsSizes_mod4 _
  have htail2 : mnl_nlmsg_get_payload_tail (applyPutOps (mnl_attr_nest_start buf t).1 ops) =
      W + 4 + putsTotal ops := by
    rw [mnl_nlmsg_get_payload_tail, fr]
    exact MNL_ALIGN_eq_self _ (by omega)
  obtain ⟨ne1, ne2, ne3⟩ := mnl_attr_nest_end_spec
    (applyPutOps (mnl_attr_nest_start buf t).1 ops) W (MNL_ATTR_HDRLEN + putsTotal ops)
    (by rw [htail2, hMA]; push_cast; omega)
    (by omega)
    (by rw [fl, hl1]; omega)
  have hplen : mnl_attr_get_payload_len
      (mnl_attr_nest_end (applyPutOps (mnl_attr_nest_start buf t).1 ops) W) W =
      putsTotal ops := by
    rw [mnl_attr_get_payload_len, ne1, hMA]
    omega
  have hatf : attrsAt
      (mnl_attr_nest_end (applyPutOps (mnl_attr_nest_start buf t).1 ops) W)
      (W + 4) (ops.map encodePutOp) := by
    refine attrsAt_congr _ (applyPutOps (mnl_attr_nest_start buf t).1 ops) _ (W + 4) ?_ fat
    intro i hi
    exact ne2 i (by omega)
  refine ⟨hs2, hplen, ?_, ?_⟩
  · intro hops
    subst hops
    rw [mnl_attr_get_str, hplen]
    show (mnl_attr_validate MNL_TYPE_NESTED []).ret = 0
    decide
  · rw [mnl_attr_parse_nested_offsets, hplen]
    refine attrWalk_of_attrsAt (ops.map encodePutOp) _ (W + MNL_ATTR_HDRLEN) _
      (by rw [hMA]; exact hatf) (encode_wf ops hwf) ?_
    have := attrsSizes_ge (ops.map encodePutOp)
    have hTT : putsTotal ops = attrsSizes (ops.map encodePutOp) := rfl
    simp only [List.length_map] at this ⊢
    omega

theorem mnl_nlmsg_put_extra_header_spec (buf : List Nat) (size : Nat) (W : Nat)
    (hW : readU32 buf 0 = W) (h16 : 16 ≤ W)
    (hcap : W + MNL_ALIGN size ≤ buf.length) (hbuf : buf.length < 4294967296) :
    readU32 (mnl_nlmsg_put_extra_header buf size) 0 = W + MNL_ALIGN size ∧
    (mnl_nlmsg_put_extra_header buf size).length = buf.length := by
  show readU32 (writeBytes (writeU32 buf 0 ((readU32 buf 0 + MNL_ALIGN size) % 4294967296))
      (readU32 buf 0) (List.replicate size 0)) 0 = W + MNL_ALIGN size ∧
    (writeBytes (writeU32 buf 0 ((readU32 buf 0 + MNL_ALIGN size) % 4294967296))
      (readU32 buf 0) (List.replicate size 0)).length = buf.length
  rw [hW]
  have hval : (W + MNL_ALIGN size) % 4294967296 = W + MNL_ALIGN size :=
    Nat.mod_eq_of_lt (by omega)
  rw [hval]
  constructor
  · have hmemset : ∀ k, k < 4 →
        readByte (writeBytes (writeU32 buf 0 (W + MNL_ALIGN size)) W
          (List.replicate size 0)) (0 + k) =
        readByte (writeU32 buf 0 (W + MNL_ALIGN size)) (0 + k) := by
      intro k hk
      exact readByte_writeBytes_of_lt _ _ _ _ (by omega)
    rw [readU32_congr _ _ 0 hmemset]
    exact readU32_writeU32 _ 0 _ (by omega) (by omega)
  · rw [length_writeBytes, length_writeU32]

theorem buildOpSize_mod (op : BuildOp) : buildOpSize op % 4 = 0 := by
  cases op <;> first | rfl | exact MNL_ALIGN_mod _

theorem buildTotal_nil : buildTotal [] = 0 := rfl

theorem buildTotal_cons (op : BuildOp) (ops : List BuildOp) :
    buildTotal (op :: ops) = buildOpSize op + buildTotal ops := by
  simp [buildTotal]

theorem applyBuildOps_nlmsg_len (ops : List BuildOp) : ∀ (buf : List Nat) (W : Nat),
    (∀ op ∈ ops, WFBuildOp op) → readU32 buf 0 = W → W % 4 = 0 → 16 ≤ W →
    W + buildTotal ops ≤ buf.length → buf.length < 4294967296 →
    readU32 (applyBuildOps buf ops) 0 = W + buildTotal ops ∧
    (applyBuildOps buf ops).length = buf.length := by
  induction ops with
  | nil =>
    intro buf W _ hW _ _ _ _
    exact ⟨by rw [show applyBuildOps buf [] = buf from rfl, buildTotal_nil, hW, Nat.add_zero],
      rfl⟩
  | cons op ops ih =>
    intro buf W hwf hW hal h16 hcap hbuf
    have hwfh : WFBuildOp op := hwf op (by simp)
    have hwft : ∀ o ∈ ops, WFBuildOp o := fun o ho => hwf o (by simp [ho])
    rw [buildTotal_cons] at hcap
    have hMA : MNL_ATTR_HDRLEN = 4 := rfl
    have hstep : readU32 (applyBuildOp buf op) 0 = W + buildOpSize op ∧
        (applyBuildOp buf op).length = buf.length := by
      cases op with
      | extraHeader size =>
        have hsz : buildOpSize (BuildOp.extraHeader size) = MNL_ALIGN size := rfl
        rw [hsz]
        exact mnl_nlmsg_put_extra_header_spec buf size W hW h16 (by omega) hbuf
      | put t data =>
        simp only [WFBuildOp] at hwfh
        have hsz : buildOpSize (BuildOp.put t data) =
            MNL_ALIGN (MNL_ATTR_HDRLEN + data.length) := by
          simp only [buildOpSize]
          congr 1
          omega
        rw [hsz] at hcap ⊢
        obtain ⟨l, r, -, -, -, -⟩ :=
          mnl_attr_put_spec buf t data W hW hal h16 (by omega) (by omega) hbuf
        exact ⟨r, l⟩
      | putU8 t v =>
        have hsz : buildOpSize (BuildOp.putU8 t v) =
            MNL_ALIGN (MNL_ATTR_HDRLEN + ([v % 256] : List Nat).length) := by
          simp [buildOpSize]
        rw [hsz] at hcap ⊢
        obtain ⟨l, r, -, -, -, -⟩ :=
          mnl_attr_put_spec buf t [v % 256] W hW hal h16 (by simp; omega) (by omega) hbuf
        exact ⟨r, l⟩
      | putU16 t v =>
        have hsz : buildOpSize (BuildOp.putU16 t v) =
            MNL_ALIGN (MNL_ATTR_HDRLEN + (bytesOfU16 (v % 65536)).length) := by
          simp [buildOpSize, length_bytesOfU16]
        rw [hsz] at hcap ⊢
        obtain ⟨l, r, -, -, -, -⟩ :=
          mnl_attr_put_spec buf t (bytesOfU16 (v % 65536)) W hW hal h16
            (by rw [length_bytesOfU16]; omega) (by omega) hbuf
        exact ⟨r, l⟩
      | putU32 t v =>
        have hsz : buildOpSize (BuildOp.putU32 t v) =
            MNL_ALIGN (MNL_ATTR_HDRLEN + (bytesOfU32 (v % 4294967296)).length) := by
          simp [buildOpSize, length_bytesOfU32]
        rw [hsz] at hcap ⊢
        obtain ⟨l, r, -, -, -, -⟩ :=
          mnl_attr_put_spec buf t (bytesOfU32 (v % 4294967296)) W hW hal h16
            (by rw [length_bytesOfU32]; omega) (by omega) hbuf
        exact ⟨r, l⟩
      | putU64 t v =>
        have hsz : buildOpSize (BuildOp.putU64 t v) =
            MNL_ALIGN (MNL_ATTR_HDRLEN + (bytesOfU64 (v % 18446744073709551616)).length) := by
          simp [buildOpSize, length_bytesOfU64]
        rw [hsz] at hcap ⊢
        obtain ⟨l, r, -, -, -, -⟩ :=
          mnl_attr_put_spec buf t (bytesOfU64 (v % 18446744073709551616)) W hW hal h16
            (by rw [length_bytesOfU64]; omega) (by omega) hbuf
        exact ⟨r, l⟩
      | putStr t s =>
        simp only [WFBuildOp] at hwfh
        obtain ⟨-, hwfl⟩ := hwfh
        have hsz : buildOpSize (BuildOp.putStr t s) =
            MNL_ALIGN (MNL_ATTR_HDRLEN + s.length) := by
          simp only [buildOpSize]
          congr 1
          omega
        rw [hsz] at hcap ⊢
        obtain ⟨l, r, -, -, -, -⟩ :=
          mnl_attr_put_spec buf t s W hW hal h16 (by omega) (by omega) hbuf
        exact ⟨r, l⟩
      | putStrNull t s =>
        simp only [WFBuildOp] at hwfh
        obtain ⟨-, hwfl⟩ := hwfh
        have hlen1 : (s ++ [0] : List Nat).length = s.length + 1 := by simp
        have hsz : buildOpSize (BuildOp.putStrNull t s) =
            MNL_ALIGN (MNL_ATTR_HDRLEN + (s ++ [0] : List Nat).length) := by
          simp only [buildOpSize, hlen1]
          congr 1
          omega
        rw [hsz] at hcap ⊢
        obtain ⟨l, r, -, -, -, -⟩ :=
          mnl_attr_put_spec buf t (s ++ [0]) W hW hal h16 (by rw [hlen1]; omega)
            (by omega) hbuf
        exact ⟨r, l⟩
      | nestStart t =>
        have hsz : buildOpSize (BuildOp.nestStart t) = MNL_ALIGN MNL_ATTR_HDRLEN := rfl
        rw [hsz] at hcap ⊢
        obtain ⟨-, l, r⟩ := mnl_attr_nest_start_spec buf t W hW hal h16 (by omega) hbuf
        exact ⟨r, l⟩
      | nestEnd start =>
        simp only [WFBuildOp] at hwfh
        have hsz : buildOpSize (BuildOp.nestEnd start) = 0 := rfl
        rw [hsz]
        constructor
        · show readU32 (mnl_attr_nest_end buf start) 0 = W + 0
          rw [mnl_attr_nest_end]
          have : readU32 (writeU16 buf start
              ((((mnl_nlmsg_get_payload_tail buf : Int) - (start : Int)) % 65536).toNat)) 0 =
              readU32 buf 0 := by
            refine readU32_congr _ _ 0 fun k hk => ?_
            exact readByte_writeBytes_of_lt _ _ _ _ (by omega)
          rw [this, hW, Nat.add_zero]
        · exact length_writeU16 _ _ _
    obtain ⟨hres, hlen2⟩ := hstep
    have hsmod : buildOpSize op % 4 = 0 := buildOpSize_mod op
    obtain ⟨ihr, ihl⟩ := ih (applyBuildOp buf op) (W + buildOpSize op) hwft hres
      (by omega) (by omega) (by rw [hlen2]; omega) (by rw [hlen2]; omega)
    constructor
    · rw [show applyBuildOps buf (op :: ops) = applyBuildOps (applyBuildOp buf op) ops
        from rfl, ihr, buildTotal_cons]
      omega
    · rw [show applyBuildOps buf (op :: ops) = applyBuildOps (applyBuildOp buf op) ops
        from rfl, ihl, hlen2]

theorem buildTotal_mod (ops : List BuildOp) : buildTotal ops % 4 = 0 := by
  induction ops with
  | nil => rfl
  | cons op ops ih =>
    rw [buildTotal_cons]
    have := buildOpSize_mod op
    omega

/-- Claim C10 (implicit invariant): after mnl_nlmsg_put_header, every
builder operation (extra header, attribute puts of every flavour, nest
start, nest end) leaves the nlmsg_len field a multiple of 4 - each advances
it only by MNL_ALIGN of the added size - and consequently
mnl_nlmsg_get_payload_tail is a 4-byte-aligned append position (equal to
nlmsg_len itself). -/
theorem claim_C10_alignment (buf : List Nat) (ops : List BuildOp)
    (hwf : ∀ op ∈ ops, WFBuildOp op)
    (hcap : MNL_NLMSG_HDRLEN + buildTotal ops ≤ buf.length)
    (hbuf : buf.length < 4294967296) :
    readU32 (applyBuildOps (mnl_nlmsg_put_header buf) ops) 0 % 4 = 0 ∧
    mnl_nlmsg_get_payload_tail (applyBuildOps (mnl_nlmsg_put_header buf) ops) % 4 = 0 ∧
    mnl_nlmsg_get_payload_tail (applyBuildOps (mnl_nlmsg_put_header buf) ops) =
      readU32 (applyBuildOps (mnl_nlmsg_put_header buf) ops) 0 := by
  have hH : MNL_NLMSG_HDRLEN = 16 := rfl
  have h16 : 16 ≤ buf.length := by omega
  obtain ⟨r, l⟩ := applyBuildOps_nlmsg_len ops (mnl_nlmsg_put_header buf) 16 hwf
    (put_header_readU32 buf h16) (by omega) (by omega)
    (by rw [length_put_header]; omega) (by rw [length_put_header]; omega)
  have hm := buildTotal_mod ops
  refine ⟨by rw [r]; omega, ?_, ?_⟩
  · rw [mnl_nlmsg_get_payload_tail, r, MNL_ALIGN_eq_self _ (by omega)]
    omega
  · rw [mnl_nlmsg_get_payload_tail, r, MNL_ALIGN_eq_self _ (by omega)]

/-- Witness for claim C3: a u32 attribute and a string attribute round-trip
through parse on a concrete 64-byte buffer. -/
theorem claim_C3_witness :
    mnl_attr_parse_offsets (applyPutOps (mnl_nlmsg_put_header (List.replicate 64 0))
      [PutOp.pu32 5 42, PutOp.pstr 6 [101, 116, 104, 48]]) 0 =
      attrOffsets MNL_NLMSG_HDRLEN
        ([PutOp.pu32 5 42, PutOp.pstr 6 [101, 116, 104, 48]].map encodePutOp) :=
  (claim_C3_roundtrip (List.replicate 64 0)
    [PutOp.pu32 5 42, PutOp.pstr 6 [101, 116, 104, 48]]
    (by decide) (by decide) (by decide)).1

/-- Witness for claim C8: the empty nest on a concrete buffer has payload
length 0 and validates as a nested attribute. -/
theorem claim_C8_witness :
    mnl_attr_get_payload_len
      (mnl_attr_nest_end (applyPutOps (mnl_attr_nest_start (mnl_nlmsg_put_header
        (List.replicate 64 0)) 2).1 []) 16) 16 = putsTotal [] ∧
    (mnl_attr_validate MNL_TYPE_NESTED
      (mnl_attr_get_str (mnl_attr_nest_end (applyPutOps (mnl_attr_nest_start
        (mnl_nlmsg_put_header (List.replicate 64 0)) 2).1 []) 16) 16)).ret = 0 :=
  ⟨(claim_C8_nesting (mnl_nlmsg_put_header (List.replicate 64 0)) 2 [] 16
      (by decide) (by decide) (by decide) (by decide) (by decide) (by decide)
      (by decide)).2.1,
   (claim_C8_nesting (mnl_nlmsg_put_header (List.replicate 64 0)) 2 [] 16
      (by decide) (by decide) (by decide) (by decide) (by decide) (by decide)
      (by decide)).2.2.1 rfl⟩

/-- Witness for claim C10: a build with an extra header, a u32 attribute
and a nest containing a u8 attribute keeps nlmsg_len a multiple of 4. -/
theorem claim_C10_witness :
    readU32 (applyBuildOps (mnl_nlmsg_put_header (List.replicate 64 0))
      [BuildOp.extraHeader 4, BuildOp.putU32 5 42, BuildOp.nestStart 7,
       BuildOp.putU8 1 9, BuildOp.nestEnd 28]) 0 % 4 = 0 :=
  (claim_C10_alignment (List.replicate 64 0)
    [BuildOp.extraHeader 4, BuildOp.putU32 5 42, BuildOp.nestStart 7,
     BuildOp.putU8 1 9, BuildOp.nestEnd 28]
    (by decide) (by decide) (by decide)).1
